import Mathlib

/-!
# Verification of the fundseeker / fund_reco_fit core

Shallow embedding of the quantitative research toolkit:
rolling feature computation (`feature_builder.py`), the cross-sectional
scorer (`backtester.py`, `advanced_recommend_service.py`), the weight
optimizer (`optimizer.py`), and the walk-forward validation engine
(`walk_forward_validator.py`).  Machine floats are modelled by exact
rationals (`ℚ`) where the source performs only field operations, and by
real numbers (`ℝ`) where the source takes square roots; `NaN` values are
modelled by `Option`.
-/

/- ### Calendar dates

`pandas.Timestamp` dates with `pd.DateOffset(months=n)` arithmetic.
A date is a pair of the absolute month index (`year * 12 + (month - 1)`)
and the day of month; the order is lexicographic, which matches the
calendar order.  Adding `n` months increments the month index and clamps
the day to the length of the target month, exactly like `DateOffset`. -/

structure Date where
  ym : Nat
  d : Nat
deriving DecidableEq, Repr

def Date.le (a b : Date) : Prop := a.ym < b.ym ∨ (a.ym = b.ym ∧ a.d ≤ b.d)

def Date.lt (a b : Date) : Prop := a.ym < b.ym ∨ (a.ym = b.ym ∧ a.d < b.d)

instance : LE Date := ⟨Date.le⟩

instance : LT Date := ⟨Date.lt⟩

instance (a b : Date) : Decidable (a ≤ b) := by
  change Decidable (Date.le a b); unfold Date.le; infer_instance

instance (a b : Date) : Decidable (a < b) := by
  change Decidable (Date.lt a b); unfold Date.lt; infer_instance

def isLeapYear (y : Nat) : Bool := y % 4 == 0 && (y % 100 != 0 || y % 400 == 0)

/-- Number of days of the month with absolute index `ym` (`ym % 12 = 0` is January). -/
def daysInMonth (ym : Nat) : Nat :=
  let m := ym % 12
  if m == 1 then (if isLeapYear (ym / 12) then 29 else 28)
  else if m == 3 || m == 5 || m == 8 || m == 10 then 30
  else 31

/-- `date + pd.DateOffset(months=n)`: advance the month index, clamping the
day of month to the target month's length. -/
def addMonths (n : Nat) (dt : Date) : Date :=
  ⟨dt.ym + n, min dt.d (daysInMonth (dt.ym + n))⟩

/-- Build a date from calendar year, month (1-12) and day. -/
def mkDate (y m d : Nat) : Date := ⟨y * 12 + (m - 1), d⟩

theorem Date.lt_of_ym_lt {a b : Date} (h : a.ym < b.ym) : a < b := Or.inl h

theorem addMonths_ym (n : Nat) (dt : Date) : (addMonths n dt).ym = dt.ym + n := rfl

theorem lt_addMonths {n : Nat} (hn : 0 < n) (dt : Date) : dt < addMonths n dt :=
  Date.lt_of_ym_lt (by simp [addMonths_ym]; omega)

/- ### Walk-forward window generation

`WalkForwardValidator.create_windows` (walk_forward_validator.py, lines
103-154): starting at `start_date`, repeatedly emit a window with
`train_end = train_start + train_months`, `test_start = train_end`,
`test_end = test_start + test_months`; stop as soon as `test_end`
exceeds `end_date`; otherwise advance `train_start` by `step_months`.
The source loops forever when `step_months = 0` and a first window fits;
the embedding cuts off after that first window in this degenerate case,
and all theorems assume `0 < step_months`. -/

structure ValidationWindow where
  trainStart : Date
  trainEnd : Date
  testStart : Date
  testEnd : Date
  windowId : Nat
deriving DecidableEq, Repr

def createWindowsGo (trainMonths testMonths stepMonths : Nat) (finalDate : Date)
    (cur : Date) (windowId : Nat) : List ValidationWindow :=
  if hle : addMonths testMonths (addMonths trainMonths cur) ≤ finalDate then
    let w : ValidationWindow :=
      ⟨cur, addMonths trainMonths cur, addMonths trainMonths cur,
        addMonths testMonths (addMonths trainMonths cur), windowId⟩
    if hs : 0 < stepMonths then
      w :: createWindowsGo trainMonths testMonths stepMonths finalDate
            (addMonths stepMonths cur) (windowId + 1)
    else [w]
  else []
termination_by finalDate.ym + 1 - cur.ym
decreasing_by
  have hym : (addMonths testMonths (addMonths trainMonths cur)).ym ≤ finalDate.ym := by
    rcases hle with h | h
    · exact Nat.le_of_lt h
    · exact Nat.le_of_eq h.1
  simp only [addMonths_ym] at hym
  simp only [addMonths_ym]
  omega

def createWindows (startDate endDate : Date)
    (trainMonths testMonths stepMonths : Nat) : List ValidationWindow :=
  createWindowsGo trainMonths testMonths stepMonths endDate startDate 1

theorem Date.lt_of_lt_of_le' {a b c : Date} (h1 : a < b) (h2 : b ≤ c) : a < c := by
  rcases h1 with h1 | h1 <;> rcases h2 with h2 | h2
  · exact Or.inl (Nat.lt_trans h1 h2)
  · exact Or.inl (h2.1 ▸ h1)
  · exact Or.inl (h1.1 ▸ h2)
  · exact Or.inr ⟨h1.1.trans h2.1, Nat.lt_of_lt_of_le h1.2 h2.2⟩

theorem Date.le_refl' (a : Date) : a ≤ a := Or.inr ⟨rfl, Nat.le_refl _⟩

theorem date_le_iff (a b : Date) :
    (a ≤ b) ↔ (a.ym < b.ym ∨ (a.ym = b.ym ∧ a.d ≤ b.d)) := Iff.rfl

/-- Every window emitted by the generator loop satisfies the window
invariants: `train_end = test_start`, `test_end ≤ end_date`, the window
start is at least the current cursor, and the id is at least the current
counter. -/
theorem createWindowsGo_mem {T S P : Nat} {finalDate : Date} :
    ∀ cur id, ∀ w ∈ createWindowsGo T S P finalDate cur id,
      w.trainEnd = w.testStart ∧ w.testEnd ≤ finalDate ∧
      (cur ≤ w.trainStart) ∧ id ≤ w.windowId := by
  intro cur id
  induction cur, id using createWindowsGo.induct T S P finalDate with
  | case1 cur id hle hs ih =>
    intro w hw
    rw [createWindowsGo.eq_def] at hw
    simp only [dif_pos hle, dif_pos hs, List.mem_cons] at hw
    rcases hw with rfl | hw
    · exact ⟨rfl, hle, Date.le_refl' _, Nat.le_refl _⟩
    · obtain ⟨h1, h2, h3, h4⟩ := ih w hw
      refine ⟨h1, h2, ?_, by omega⟩
      rcases h3 with h3 | h3
      · exact Or.inl (by simp only [addMonths_ym] at h3; omega)
      · exact Or.inl (by simp only [← h3.1, addMonths_ym]; omega)
  | case2 cur id hle hs =>
    intro w hw
    rw [createWindowsGo.eq_def] at hw
    simp only [dif_pos hle, dif_neg hs, List.mem_singleton] at hw
    subst hw
    exact ⟨rfl, hle, Date.le_refl' _, Nat.le_refl _⟩
  | case3 cur id hle =>
    intro w hw
    rw [createWindowsGo.eq_def] at hw
    simp only [dif_neg hle] at hw
    exact absurd hw (List.not_mem_nil w)

/-- Windows are generated in strictly increasing start-date and id order. -/
theorem createWindowsGo_chain {T S P : Nat} (hP : 0 < P) {finalDate : Date} :
    ∀ cur id, List.Chain'
      (fun a b => a.trainStart < b.trainStart ∧ a.windowId < b.windowId)
      (createWindowsGo T S P finalDate cur id) := by
  intro cur id
  induction cur, id using createWindowsGo.induct T S P finalDate with
  | case1 cur id hle hs ih =>
    rw [createWindowsGo.eq_def]
    simp only [dif_pos hle, dif_pos hs]
    refine List.chain'_cons'.mpr ⟨?_, ih⟩
    intro y hy
    have hmem : y ∈ createWindowsGo T S P finalDate (addMonths P cur) (id + 1) :=
      List.mem_of_mem_head? hy
    obtain ⟨_, _, h3, h4⟩ := createWindowsGo_mem _ _ y hmem
    exact ⟨Date.lt_of_lt_of_le' (lt_addMonths hP cur) h3,
      Nat.lt_of_lt_of_le (Nat.lt_succ_self id) h4⟩
  | case2 cur id hle hs =>
    rw [createWindowsGo.eq_def]
    simp only [dif_pos hle, dif_neg hs]
    exact List.chain'_singleton _
  | case3 cur id hle =>
    rw [createWindowsGo.eq_def]
    simp only [dif_neg hle]
    exact List.chain'_nil

/-- C2: every window emitted by `create_windows` satisfies
`train_end = test_start` and `test_end ≤ end_date`; windows appear in
strictly increasing window-id and start-date order (generation halts
before a window whose `test_end` would exceed the end date); and for
start 2020-01-01, end 2021-12-31, train 12 months, test 6 months, step 6
months exactly one window is produced: train [2020-01-01, 2021-01-01),
test [2021-01-01, 2021-07-01). -/
theorem create_windows_invariants (startDate endDate : Date) (T S P : Nat)
    (hP : 0 < P) :
    (∀ w ∈ createWindows startDate endDate T S P,
        w.trainEnd = w.testStart ∧ w.testEnd ≤ endDate) ∧
    List.Chain' (fun a b => a.trainStart < b.trainStart ∧ a.windowId < b.windowId)
      (createWindows startDate endDate T S P) ∧
    createWindows (mkDate 2020 1 1) (mkDate 2021 12 31) 12 6 6 =
      [⟨mkDate 2020 1 1, mkDate 2021 1 1, mkDate 2021 1 1, mkDate 2021 7 1, 1⟩] := by
  refine ⟨?_, createWindowsGo_chain hP _ _, ?_⟩
  · intro w hw
    obtain ⟨h1, h2, _, _⟩ := createWindowsGo_mem _ _ w hw
    exact ⟨h1, h2⟩
  · show createWindowsGo 12 6 6 (mkDate 2021 12 31) (mkDate 2020 1 1) 1 = _
    rw [createWindowsGo.eq_def]
    norm_num [mkDate, addMonths, daysInMonth, isLeapYear, date_le_iff]
    rw [createWindowsGo.eq_def]
    norm_num [mkDate, addMonths, daysInMonth, isLeapYear, date_le_iff]

/-- Witness for C2 at the concrete spec example. -/
theorem create_windows_invariants_witness :
    0 < 6 ∧
    (∀ w ∈ createWindows (mkDate 2020 1 1) (mkDate 2021 12 31) 12 6 6,
        w.trainEnd = w.testStart ∧ w.testEnd ≤ mkDate 2021 12 31) ∧
    createWindows (mkDate 2020 1 1) (mkDate 2021 12 31) 12 6 6 =
      [⟨mkDate 2020 1 1, mkDate 2021 1 1, mkDate 2021 1 1, mkDate 2021 7 1, 1⟩] :=
  ⟨by norm_num,
   (create_windows_invariants (mkDate 2020 1 1) (mkDate 2021 12 31) 12 6 6
      (by norm_num)).1,
   (create_windows_invariants (mkDate 2020 1 1) (mkDate 2021 12 31) 12 6 6
      (by norm_num)).2.2⟩

/- ### Cross-sectional scorer

The feature tables are in-memory rows mapping column names to numbers;
a weight mapping is an association list preserving insertion order, like
a Python dict.  `backtester.evaluate` (backtester.py, lines 49-51) builds
the weight vector as `[weights.get(col, 0.0) for col in FEATURE_COLS]`
and scores each row by the exact dot product;
`AdvancedRecommendService._score` (advanced_recommend_service.py, lines
94-101) keeps only the weight keys that are columns of the table, raises
`ValueError` when none is, and scores by the dot product over the kept
columns.  `ValueError` is modelled by `none`. -/

abbrev FeatureMap (α : Type) := List (String × α)

def FEATURE_COLS : List String :=
  ["ret_1m", "ret_3m", "ret_6m", "ret_12m", "ret_24m", "ret_36m",
   "risk_adj_return", "downside_vol_36m", "mdd_36m", "morningstar_score",
   "momentum_ratio_3m_12m", "vol_trend_3m_6m", "drawdown_diff_6m_36m"]

/-- `weights.get(col, 0.0)`. -/
def getW {α : Type} [Zero α] (w : FeatureMap α) (c : String) : α :=
  (w.lookup c).getD 0

/-- Dot product of the row restricted to `cols` with the weight vector
built over `cols`: `feature_matrix.dot(weight_vector)` for one row. -/
def dotCols {α : Type} [Semiring α] (cols : List String)
    (w : FeatureMap α) (r : FeatureMap α) : α :=
  (cols.map (fun c => getW w c * getW r c)).sum

/-- Scoring part of `backtester.evaluate`: every row is scored by the dot
product over the fixed `FEATURE_COLS`; weight keys outside
`FEATURE_COLS` are ignored and columns missing from `weights` get
coefficient 0.  No error path exists. -/
def backtesterScores (w : FeatureMap ℚ) (rows : List (FeatureMap ℚ)) : List ℚ :=
  rows.map (fun r => dotCols FEATURE_COLS w r)

/-- The weight keys kept by `AdvancedRecommendService._score`:
`[col for col in weights if col in df.columns]`. -/
def keptCols (tableCols : List String) (w : FeatureMap ℚ) : List String :=
  (w.map Prod.fst).filter (fun c => tableCols.contains c)

/-- `AdvancedRecommendService._score`: keep the weight keys that are
columns of the table (in weight order); if none is, raise `ValueError`
(modelled as `none`); otherwise score rows by the dot product over the
kept columns. -/
def serviceScore (tableCols : List String) (rows : List (FeatureMap ℚ))
    (w : FeatureMap ℚ) : Option (List ℚ) :=
  if keptCols tableCols w = [] then none
  else some (rows.map (fun r => dotCols (keptCols tableCols w) w r))

theorem getW_cons_ne {α : Type} [Zero α] {n c : String} (h : c ≠ n)
    (v : α) (w : FeatureMap α) : getW ((n, v) :: w) c = getW w c := by
  simp only [getW, List.lookup_cons]
  have : (c == n) = false := beq_false_of_ne h
  rw [this]

theorem dotCols_cons_notMem {α : Type} [Semiring α] {cols : List String}
    {n : String} (h : n ∉ cols) (v : α) (w r : FeatureMap α) :
    dotCols cols ((n, v) :: w) r = dotCols cols w r := by
  unfold dotCols
  congr 1
  apply List.map_congr_left
  intro c hc
  have hne : c ≠ n := fun hcn => h (hcn ▸ hc)
  rw [getW_cons_ne hne]

theorem keptCols_nil_iff (tableCols : List String) (w : FeatureMap ℚ) :
    keptCols tableCols w = [] ↔ ∀ p ∈ w, p.1 ∉ tableCols := by
  unfold keptCols
  rw [List.filter_eq_nil_iff]
  constructor
  · intro h p hp hmem
    exact h p.1 (List.mem_map_of_mem Prod.fst hp) (by simpa using hmem)
  · intro h c hc
    obtain ⟨p, hp, rfl⟩ := List.mem_map.mp hc
    simpa using h p hp

theorem serviceScore_none_iff (tableCols : List String)
    (rows : List (FeatureMap ℚ)) (w : FeatureMap ℚ) :
    serviceScore tableCols rows w = none ↔ ∀ p ∈ w, p.1 ∉ tableCols := by
  unfold serviceScore
  by_cases h : keptCols tableCols w = []
  · simp only [h, if_pos rfl]
    simpa using (keptCols_nil_iff tableCols w).mp h
  · rw [if_neg h]
    simp only [reduceCtorEq, false_iff]
    intro hall
    exact h ((keptCols_nil_iff tableCols w).mpr hall)

theorem keptCols_cons_notMem {tableCols : List String} {n : String}
    (hn : n ∉ tableCols) (v : ℚ) (w : FeatureMap ℚ) :
    keptCols tableCols ((n, v) :: w) = keptCols tableCols w := by
  unfold keptCols
  simp only [List.map_cons, List.filter_cons]
  have hc : tableCols.contains n = false := by simpa using hn
  rw [hc]
  simp

/-- C1 (amended): unknown feature names in `weights` are silently ignored
rather than raised as a `ConfigurationError`: prepending a weight entry
whose name is not a table column leaves the service scorer's result
unchanged, and the service scorer fails (`ValueError`) exactly when *no*
weight name matches a table column; the backtester scorer has no error
path, ignores weight keys outside `FEATURE_COLS`, and a table feature
column absent from `weights` contributes with coefficient 0 (adding it
explicitly with weight 0 changes nothing); scores are the exact dot
product over the matched columns. -/
theorem scorer_unknown_and_missing_weights (tableCols : List String)
    (rows : List (FeatureMap ℚ)) (w : FeatureMap ℚ) (n : String) (v : ℚ) :
    (n ∉ tableCols → serviceScore tableCols rows ((n, v) :: w) =
        serviceScore tableCols rows w) ∧
    (serviceScore tableCols rows w = none ↔ ∀ p ∈ w, p.1 ∉ tableCols) ∧
    (n ∉ FEATURE_COLS → backtesterScores ((n, v) :: w) rows =
        backtesterScores w rows) ∧
    (n ∈ FEATURE_COLS → n ∉ w.map Prod.fst →
        backtesterScores ((n, 0) :: w) rows = backtesterScores w rows) := by
  refine ⟨?_, serviceScore_none_iff tableCols rows w, ?_, ?_⟩
  · intro hn
    unfold serviceScore
    rw [keptCols_cons_notMem hn]
    by_cases h : keptCols tableCols w = []
    · rw [if_pos h, if_pos h]
    · rw [if_neg h, if_neg h]
      congr 1
      apply List.map_congr_left
      intro r _
      apply dotCols_cons_notMem
      intro hmem
      unfold keptCols at hmem
      rw [List.mem_filter] at hmem
      exact hn (by simpa using hmem.2)
  · intro hn
    unfold backtesterScores
    apply List.map_congr_left
    intro r _
    exact dotCols_cons_notMem hn v w r
  · intro hn hnw
    unfold backtesterScores
    apply List.map_congr_left
    intro r _
    unfold dotCols
    congr 1
    apply List.map_congr_left
    intro c _
    by_cases hc : c = n
    · subst hc
      have h1 : getW ((c, (0:ℚ)) :: w) c = 0 := by
        simp [getW, List.lookup_cons]
      have h2 : getW w c = 0 := by
        have hnone : w.lookup c = none := by
          rw [List.lookup_eq_none_iff]
          intro p hp
          have : c ≠ p.1 := fun hcp => hnw (hcp ▸ List.mem_map_of_mem Prod.fst hp)
          simpa using this
        simp [getW, hnone]
      rw [h1, h2]
    · rw [getW_cons_ne hc]

/-- Witness for C1 at concrete inputs. -/
theorem scorer_unknown_and_missing_weights_witness :
    ("bogus" ∉ FEATURE_COLS) ∧
    serviceScore FEATURE_COLS [[("ret_1m", (2:ℚ))]]
        (("bogus", (5:ℚ)) :: [("ret_1m", (3:ℚ))]) =
      serviceScore FEATURE_COLS [[("ret_1m", (2:ℚ))]] [("ret_1m", (3:ℚ))] ∧
    backtesterScores (("bogus", (5:ℚ)) :: [("ret_1m", (3:ℚ))]) [[("ret_1m", (2:ℚ))]] =
      backtesterScores [("ret_1m", (3:ℚ))] [[("ret_1m", (2:ℚ))]] :=
  ⟨by decide,
   ((scorer_unknown_and_missing_weights FEATURE_COLS [[("ret_1m", (2:ℚ))]]
      [("ret_1m", (3:ℚ))] "bogus" 5).1 (by decide)),
   ((scorer_unknown_and_missing_weights FEATURE_COLS [[("ret_1m", (2:ℚ))]]
      [("ret_1m", (3:ℚ))] "bogus" 5).2.2.1 (by decide))⟩

/-- C1 counterexample: a weight mapping containing the unknown feature
name "bogus" (not a column of the table) does *not* make the call fail:
the service scorer returns a result rather than raising, refuting the
claimed `ConfigurationError` (no such class exists in the repository). -/
theorem scorer_unknown_weight_no_error :
    ("bogus" ∉ FEATURE_COLS) ∧
    (serviceScore FEATURE_COLS [[("ret_1m", (2:ℚ))]]
        [("ret_1m", (3:ℚ)), ("bogus", (5:ℚ))]).isSome = true := by
  constructor
  · decide
  · rw [Option.isSome_iff_ne_none]
    rw [Ne, serviceScore_none_iff]
    intro h
    exact absurd (by decide : ("ret_1m" : String) ∈ FEATURE_COLS)
      (h ("ret_1m", 3) (by simp))

/- ### Weight vector persistence

The persisted document is JSON; the fragment relevant here is numbers
and string-keyed objects.  `backtester.load_weights` (backtester.py,
lines 74-76) returns `data.get("weights", data)`;
`AdvancedRecommendService._load_weights` (advanced_recommend_service.py,
lines 86-92) computes `data.get("weights") or data` (Python truthiness:
an *empty* object and the number 0 are falsy) and then coerces every
value with `float(v)`, raising `TypeError` on non-numbers (modelled as
`none`). -/

inductive JVal where
  | num : ℚ → JVal
  | obj : List (String × JVal) → JVal

/-- Python truthiness of a JSON value. -/
def JVal.truthy : JVal → Bool
  | .num q => decide (q ≠ 0)
  | .obj fs => !fs.isEmpty

/-- `float(v)`: succeeds only on numbers. -/
def floatOfJ : JVal → Option ℚ
  | .num q => some q
  | .obj _ => none

/-- Serialize a weight mapping as a JSON object (the bare form). -/
def encodeWeights (w : FeatureMap ℚ) : JVal :=
  .obj (w.map (fun p => (p.1, .num p.2)))

/-- The nested form written by the optimizer: the coefficient mapping
under a `weights` key, followed by metadata fields. -/
def persistNested (w : FeatureMap ℚ) (meta : List (String × JVal)) : JVal :=
  .obj (("weights", encodeWeights w) :: meta)

/-- `backtester.load_weights`: `data.get("weights", data)`. -/
def loadWeightsBacktester (j : JVal) : JVal :=
  match j with
  | .obj fields => (fields.lookup "weights").getD j
  | .num q => .num q

/-- `AdvancedRecommendService._load_weights`:
`weights = data.get("weights") or data` then
`{k: float(v) for k, v in weights.items()}`. -/
def decodeFields : List (String × JVal) → Option (FeatureMap ℚ)
  | [] => some []
  | p :: t =>
    match floatOfJ p.2, decodeFields t with
    | some q, some r => some ((p.1, q) :: r)
    | _, _ => none

def loadWeightsService (j : JVal) : Option (FeatureMap ℚ) :=
  match j with
  | .obj fields =>
    (match (match fields.lookup "weights" with
            | some v => if v.truthy then v else JVal.obj fields
            | none => JVal.obj fields) with
     | .obj fs => decodeFields fs
     | .num _ => none)
  | .num _ => none

theorem decodeFields_encode (w : FeatureMap ℚ) :
    decodeFields (w.map (fun p => (p.1, JVal.num p.2))) = some w := by
  induction w with
  | nil => rfl
  | cons p t ih => simp [decodeFields, floatOfJ, ih]

theorem loadWeightsService_nested (w : FeatureMap ℚ) (hne : w ≠ [])
    (meta : List (String × JVal)) :
    loadWeightsService (persistNested w meta) = some w := by
  have htr : JVal.truthy (JVal.obj (w.map (fun p => (p.1, JVal.num p.2)))) = true := by
    simp [JVal.truthy, List.isEmpty_eq_true, hne]
  simp [loadWeightsService, persistNested, List.lookup_cons, encodeWeights,
    htr, decodeFields_encode]

/-- C8 (amended): persisting a `WeightVector` and loading it yields the
same coefficients — for the backtester loader in both the bare and the
nested form, and for the service loader in the nested form whenever the
mapping is nonempty and in the bare form whenever no feature is
literally named "weights"; re-scoring an identical feature table with
the loaded coefficients then reproduces exactly the same scores.  (On an
empty mapping nested under `weights` the service loader raises instead,
see the counterexample.) -/
theorem weights_roundtrip (w : FeatureMap ℚ) (meta : List (String × JVal))
    (rows : List (FeatureMap ℚ)) :
    (loadWeightsBacktester (persistNested w meta) = encodeWeights w) ∧
    ("weights" ∉ w.map Prod.fst →
        loadWeightsBacktester (encodeWeights w) = encodeWeights w) ∧
    (w ≠ [] → loadWeightsService (persistNested w meta) = some w) ∧
    ("weights" ∉ w.map Prod.fst →
        loadWeightsService (encodeWeights w) = some w) ∧
    (∀ w2, loadWeightsService (persistNested w meta) = some w2 →
        backtesterScores w2 rows = backtesterScores w rows) := by
  have hlookup : ("weights" ∉ w.map Prod.fst) →
      (w.map (fun p => (p.1, JVal.num p.2))).lookup "weights" = none := by
    intro hn
    rw [List.lookup_eq_none_iff]
    intro p hp
    obtain ⟨q, hq, rfl⟩ := List.mem_map.mp hp
    have : ("weights" : String) ≠ q.1 :=
      fun hc => hn (hc ▸ List.mem_map_of_mem Prod.fst hq)
    simpa using this
  refine ⟨?_, ?_, fun hne => loadWeightsService_nested w hne meta, ?_, ?_⟩
  · simp [loadWeightsBacktester, persistNested, List.lookup_cons]
  · intro hn
    simp [loadWeightsBacktester, encodeWeights, hlookup hn]
  · intro hn
    simp [loadWeightsService, encodeWeights, hlookup hn, decodeFields_encode]
  · intro w2 h2
    by_cases hne : w = []
    · subst hne
      simp [loadWeightsService, persistNested, encodeWeights, JVal.truthy,
        List.lookup_cons, decodeFields, floatOfJ] at h2
    · rw [loadWeightsService_nested w hne meta] at h2
      cases h2
      rfl

/-- Witness for C8 at a concrete nonempty weight vector. -/
theorem weights_roundtrip_witness :
    ([("ret_1m", (1:ℚ)/2)] ≠ ([] : FeatureMap ℚ)) ∧
    ("weights" ∉ ([("ret_1m", (1:ℚ)/2)] : FeatureMap ℚ).map Prod.fst) ∧
    loadWeightsService (persistNested [("ret_1m", (1:ℚ)/2)] [("sharpe", JVal.num 1)]) =
      some [("ret_1m", (1:ℚ)/2)] ∧
    loadWeightsService (encodeWeights [("ret_1m", (1:ℚ)/2)]) =
      some [("ret_1m", (1:ℚ)/2)] ∧
    loadWeightsBacktester (persistNested [("ret_1m", (1:ℚ)/2)] [("sharpe", JVal.num 1)]) =
      encodeWeights [("ret_1m", (1:ℚ)/2)] :=
  ⟨by simp,
   by decide,
   (weights_roundtrip [("ret_1m", (1:ℚ)/2)] [("sharpe", JVal.num 1)] []).2.2.1 (by simp),
   (weights_roundtrip [("ret_1m", (1:ℚ)/2)] [("sharpe", JVal.num 1)] []).2.2.2.1 (by decide),
   (weights_roundtrip [("ret_1m", (1:ℚ)/2)] [("sharpe", JVal.num 1)] []).1⟩

/-- C8 counterexample: the empty weight mapping persisted in the nested
form (`{"weights": {}}`) does not load back through the service loader:
`data.get("weights") or data` falls back to the whole document because
the empty dict is falsy, and `float` then raises `TypeError` on the
nested object — refuting the claim that the loader accepts both forms
for every `WeightVector`. -/
theorem weights_roundtrip_empty_nested_fails :
    loadWeightsService (persistNested [] []) = none := rfl

/- ### Rolling maximum drawdown

`_rolling_max_drawdown` (feature_builder.py, lines 90-98): for each full
rolling window over the NAV path, `cumulative = np.maximum.accumulate(arr)`,
`drawdowns = arr / cumulative - 1`, result `drawdowns.min()` (`NaN`,
i.e. `none`, on an empty array).  Generic over an ordered field so that
the same definition serves the rational witnesses and the real-valued
feature pipeline. -/

def runMaxAux {α : Type} [LinearOrder α] (m : α) : List α → List α
  | [] => []
  | x :: xs => max m x :: runMaxAux (max m x) xs

/-- `np.maximum.accumulate`. -/
def runMax {α : Type} [LinearOrder α] : List α → List α
  | [] => []
  | x :: xs => x :: runMaxAux x xs

/-- `arr.min()`: `none` on an empty array (numpy raises, pandas gives NaN;
the rolling caller never passes an empty window). -/
def npMin {α : Type} [LinearOrder α] : List α → Option α
  | [] => none
  | x :: xs => some (xs.foldl min x)

/-- The `mdd` closure of `_rolling_max_drawdown` applied to one window. -/
def mddPath {α : Type} [LinearOrderedField α] (arr : List α) : Option α :=
  npMin (List.zipWith (fun a m => a / m - 1) arr (runMax arr))

/-- `pandas.rolling(window).apply(f, raw=True)`: `none` until the window
is full, then `f` of the trailing `w` entries. -/
def rollingApply {α β : Type} (f : List α → β) (w : Nat) (xs : List α) :
    List (Option β) :=
  (List.range xs.length).map
    (fun i => if w ≤ i + 1 then some (f ((xs.drop (i + 1 - w)).take w)) else none)

/-- `_rolling_max_drawdown(nav, window)` itself. -/
def rollingMaxDrawdown {α : Type} [LinearOrderedField α] (w : Nat)
    (nav : List α) : List (Option α) :=
  (rollingApply mddPath w nav).map (fun o => o.bind (fun x => x))

/-- Spec-side formulation ("the minimum over the path of
(price / running-max-price − 1)"): running max written as the maximum of
the price prefix up to each index. -/
def maxListNE {α : Type} [LinearOrder α] (l : List α) (dflt : α) : α :=
  match l with
  | [] => dflt
  | x :: xs => xs.foldl max x

def specDrawdowns {α : Type} [LinearOrderedField α] (arr : List α) : List α :=
  (List.range arr.length).map
    (fun i => arr.getD i 0 / maxListNE (arr.take (i + 1)) 0 - 1)

theorem runMaxAux_length {α : Type} [LinearOrder α] (m : α) (xs : List α) :
    (runMaxAux m xs).length = xs.length := by
  induction xs generalizing m with
  | nil => rfl
  | cons y ys ih => simp [runMaxAux, ih]

theorem runMax_length {α : Type} [LinearOrder α] (xs : List α) :
    (runMax xs).length = xs.length := by
  cases xs with
  | nil => rfl
  | cons x xs => simp [runMax, runMaxAux_length]

theorem runMaxAux_getD {α : Type} [LinearOrderedField α] (xs : List α) :
    ∀ (m : α) (i : Nat), i < xs.length →
      (runMaxAux m xs).getD i 0 = (xs.take (i + 1)).foldl max m := by
  induction xs with
  | nil => intro m i h; exact absurd h (by simp)
  | cons y ys ih =>
    intro m i h
    cases i with
    | zero => simp [runMaxAux]
    | succ i =>
      have hlen : i < ys.length := by simpa using h
      simp only [runMaxAux, List.getD_cons_succ, List.take_succ_cons,
        List.foldl_cons]
      exact ih (max m y) i hlen

theorem runMax_getD {α : Type} [LinearOrderedField α] (arr : List α) (i : Nat)
    (h : i < arr.length) :
    (runMax arr).getD i 0 = maxListNE (arr.take (i + 1)) 0 := by
  cases arr with
  | nil => exact absurd h (by simp)
  | cons x xs =>
    cases i with
    | zero => simp [runMax, maxListNE]
    | succ i =>
      have hlen : i < xs.length := by simpa using h
      simp only [runMax, List.getD_cons_succ, List.take_succ_cons, maxListNE]
      exact runMaxAux_getD xs x i hlen

theorem zipWith_drawdowns_eq_spec {α : Type} [LinearOrderedField α]
    (arr : List α) :
    List.zipWith (fun a m => a / m - 1) arr (runMax arr) = specDrawdowns arr := by
  apply List.ext_getElem
  · simp [specDrawdowns, runMax_length]
  · intro i h1 h2
    have hlen : i < arr.length := by
      simpa [runMax_length] using h1
    have hr : i < (runMax arr).length := by simpa [runMax_length] using hlen
    rw [List.getElem_zipWith]
    simp only [specDrawdowns, List.getElem_map, List.getElem_range]
    rw [← List.getD_eq_getElem arr 0 hlen, ← List.getD_eq_getElem (runMax arr) 0 hr,
      runMax_getD arr i hlen]

/-- The code's drawdown equals the spec's formulation. -/
theorem mddPath_eq_spec {α : Type} [LinearOrderedField α] (arr : List α) :
    mddPath arr = npMin (specDrawdowns arr) := by
  rw [mddPath, zipWith_drawdowns_eq_spec]

theorem runMaxAux_of_chain {α : Type} [LinearOrder α] :
    ∀ (xs : List α) (m : α), List.Chain (fun a b => a ≤ b) m xs →
      runMaxAux m xs = xs := by
  intro xs
  induction xs with
  | nil => intro m _; rfl
  | cons y ys ih =>
    intro m hc
    rcases List.chain_cons.mp hc with ⟨hmy, hyc⟩
    simp only [runMaxAux, max_eq_right hmy]
    rw [ih y hyc]

theorem runMax_of_chain {α : Type} [LinearOrder α] (arr : List α)
    (h : List.Chain' (fun a b => a ≤ b) arr) : runMax arr = arr := by
  cases arr with
  | nil => rfl
  | cons x xs =>
    simp only [runMax]
    rw [runMaxAux_of_chain xs x h]

theorem npMin_const {α : Type} [LinearOrder α] (l : List α) (c : α)
    (hne : l ≠ []) (h : ∀ a ∈ l, a = c) : npMin l = some c := by
  cases l with
  | nil => exact absurd rfl hne
  | cons x xs =>
    have hx : x = c := h x (by simp)
    subst hx
    simp only [npMin, Option.some.injEq]
    induction xs with
    | nil => rfl
    | cons y ys ih =>
      have hy : y = x := h y (by simp)
      subst hy
      simp only [List.foldl_cons, min_self]
      exact ih (by simp) (fun a ha => h a (by simp [List.mem_cons] at ha ⊢; tauto))

theorem chain_ge_all {α : Type} [LinearOrder α] :
    ∀ (xs : List α) (m : α), List.Chain (fun a b => b ≤ a) m xs →
      ∀ y ∈ xs, y ≤ m := by
  intro xs
  induction xs with
  | nil => intro m _ y hy; exact absurd hy (by simp)
  | cons z zs ih =>
    intro m hc y hy
    rcases List.chain_cons.mp hc with ⟨hzm, hzc⟩
    rcases List.mem_cons.mp hy with rfl | hy
    · exact hzm
    · exact (ih z hzc y hy).trans hzm

theorem runMaxAux_of_all_le {α : Type} [LinearOrder α] :
    ∀ (xs : List α) (m : α), (∀ y ∈ xs, y ≤ m) →
      runMaxAux m xs = List.replicate xs.length m := by
  intro xs
  induction xs with
  | nil => intro m _; rfl
  | cons y ys ih =>
    intro m h
    have hy : y ≤ m := h y (by simp)
    simp only [runMaxAux, max_eq_left hy, List.length_cons, List.replicate_succ]
    rw [ih m (fun z hz => h z (by simp [hz]))]

theorem zipWith_replicate_right {α β γ : Type} (f : α → β → γ) (c : β) :
    ∀ (l : List α), List.zipWith f l (List.replicate l.length c) =
      l.map (fun a => f a c) := by
  intro l
  induction l with
  | nil => rfl
  | cons x xs ih => simp only [List.length_cons, List.replicate_succ,
      List.zipWith_cons_cons, List.map_cons, ih]

theorem foldl_min_descending {α : Type} [LinearOrder α] :
    ∀ (xs : List α) (x : α), List.Chain (fun a b => b ≤ a) x xs →
      xs.foldl min x = (x :: xs).getLast (List.cons_ne_nil x xs) := by
  intro xs
  induction xs with
  | nil => intro x _; rfl
  | cons y ys ih =>
    intro x hc
    rcases List.chain_cons.mp hc with ⟨hyx, hyc⟩
    simp only [List.foldl_cons, min_eq_right hyx]
    rw [ih y hyc]
    rw [List.getLast_cons (List.cons_ne_nil y ys)]

theorem getLast_map_ne {α β : Type} (f : α → β) :
    ∀ (l : List α) (h : l ≠ []) (h2 : l.map f ≠ []),
      (l.map f).getLast h2 = f (l.getLast h) := by
  intro l
  induction l with
  | nil => intro h _; exact absurd rfl h
  | cons x xs ih =>
    intro h h2
    cases xs with
    | nil => rfl
    | cons y ys =>
      have h3 : List.map f (y :: ys) ≠ [] := by simp
      exact ((List.getLast_cons h3).trans
        (ih (List.cons_ne_nil y ys) h3)).trans
        (congrArg f (List.getLast_cons (List.cons_ne_nil y ys))).symm

/-- C5: on every window-length price path the code's rolling maximum
drawdown (`mdd` in `_rolling_max_drawdown`) equals the spec's "minimum
over the path of (price / running-max-price − 1)"; it is exactly 0 on
every monotonically non-decreasing positive path, and exactly −0.5 on a
monotone (non-increasing) positive path whose final price is half its
initial price. -/
theorem rolling_max_drawdown_correct {α : Type} [LinearOrderedField α]
    (arr : List α) (x : α) (xs : List α) :
    (mddPath arr = npMin (specDrawdowns arr)) ∧
    (List.Chain' (fun a b => a ≤ b) arr → (∀ a ∈ arr, 0 < a) → arr ≠ [] →
      mddPath arr = some 0) ∧
    (List.Chain' (fun a b => b ≤ a) (x :: xs) → (∀ a ∈ x :: xs, 0 < a) →
      (x :: xs).getLast (List.cons_ne_nil x xs) = x / 2 →
      mddPath (x :: xs) = some (-(1/2))) := by
  refine ⟨mddPath_eq_spec arr, ?_, ?_⟩
  · intro hchain hpos hne
    unfold mddPath
    rw [runMax_of_chain arr hchain, List.zipWith_same]
    apply npMin_const
    · simpa using hne
    · intro a ha
      obtain ⟨b, hb, rfl⟩ := List.mem_map.mp ha
      have : b ≠ 0 := (hpos b hb).ne'
      simp [div_self this]
  · intro hchain hpos hlast
    have hxpos : (0:α) < x := hpos x (by simp)
    have hall : ∀ y ∈ xs, y ≤ x := chain_ge_all xs x hchain
    have hx0 : x ≠ 0 := hxpos.ne'
    unfold mddPath
    have hrm : runMax (x :: xs) = List.replicate (x :: xs).length x := by
      simp only [runMax, List.length_cons, List.replicate_succ]
      rw [runMaxAux_of_all_le xs x hall]
    rw [hrm, zipWith_replicate_right]
    have hchain2 : List.Chain' (fun a b => b ≤ a)
        ((x :: xs).map (fun a => a / x - 1)) := by
      rw [List.chain'_map]
      refine hchain.imp ?_
      intro a b hba
      have hdiv : b / x ≤ a / x := by
        rw [div_le_div_iff_of_pos_right hxpos]
        exact hba
      linarith
    have hch : List.Chain (fun a b => b ≤ a) (x / x - 1)
        (xs.map (fun a => a / x - 1)) := hchain2
    have heq1 : npMin ((x :: xs).map (fun a => a / x - 1)) =
        some ((xs.map (fun a => a / x - 1)).foldl min (x / x - 1)) := rfl
    rw [heq1, foldl_min_descending _ _ hch]
    have heq2 : ((x / x - 1) :: xs.map (fun a => a / x - 1)).getLast
        (List.cons_ne_nil _ _) =
        ((x :: xs).getLast (List.cons_ne_nil x xs)) / x - 1 :=
      getLast_map_ne (fun a => a / x - 1) (x :: xs) (List.cons_ne_nil x xs)
        (by simp)
    rw [heq2, hlast]
    congr 1
    field_simp
    ring

/-- Witness for C5: a strictly increasing path has drawdown exactly 0 and
a monotone halving path has drawdown exactly −0.5. -/
theorem rolling_max_drawdown_correct_witness :
    (List.Chain' (fun a b => a ≤ b) ([1, 2, 3] : List ℚ) ∧
      (∀ a ∈ ([1, 2, 3] : List ℚ), 0 < a) ∧
      mddPath ([1, 2, 3] : List ℚ) = some 0) ∧
    (List.Chain' (fun a b => b ≤ a) ((4 : ℚ) :: [2]) ∧
      ((4 : ℚ) :: [2]).getLast (List.cons_ne_nil 4 [2]) = 4 / 2 ∧
      mddPath ((4 : ℚ) :: [2]) = some (-(1/2))) := by
  have hc1 : List.Chain' (fun a b => a ≤ b) ([1, 2, 3] : List ℚ) := by
    norm_num [List.chain'_cons]
  have hp1 : ∀ a ∈ ([1, 2, 3] : List ℚ), 0 < a := by
    norm_num [List.forall_mem_cons]
  have hc2 : List.Chain' (fun a b => b ≤ a) ((4 : ℚ) :: [2]) := by
    norm_num [List.chain'_cons]
  have hp2 : ∀ a ∈ ((4 : ℚ) :: [2]), 0 < a := by
    norm_num [List.forall_mem_cons]
  have hl2 : ((4 : ℚ) :: [2]).getLast (List.cons_ne_nil 4 [2]) = 4 / 2 := by
    show (2 : ℚ) = 4 / 2
    norm_num
  refine ⟨⟨hc1, hp1, ?_⟩, ⟨hc2, hl2, ?_⟩⟩
  · exact (rolling_max_drawdown_correct ([1, 2, 3] : List ℚ) 1 []).2.1 hc1 hp1
      (by simp)
  · exact (rolling_max_drawdown_correct ([] : List ℚ) 4 [2]).2.2 hc2 hp2 hl2

/- ### Deterministic sorting

`pandas.sort_values`: the embedding fixes a deterministic insertion sort
on a Boolean "comes before or at" comparator; all comparisons are
exactly the source's key comparisons, so any deterministic
comparison sort yields the same selections for the properties proved
here. -/

def insertBy {β : Type} (le : β → β → Bool) (x : β) : List β → List β
  | [] => [x]
  | y :: ys => if le x y then x :: y :: ys else y :: insertBy le x ys

def sortBy {β : Type} (le : β → β → Bool) : List β → List β
  | [] => []
  | x :: xs => insertBy le x (sortBy le xs)

theorem insertBy_perm {β : Type} (le : β → β → Bool) (x : β) :
    ∀ l : List β, (insertBy le x l).Perm (x :: l) := by
  intro l
  induction l with
  | nil => exact List.Perm.refl _
  | cons y ys ih =>
    by_cases h : le x y
    · simp [insertBy, h]
    · simp only [insertBy, h, Bool.false_eq_true, if_false]
      exact (List.Perm.cons y ih).trans (List.Perm.swap x y ys)

theorem sortBy_perm {β : Type} (le : β → β → Bool) :
    ∀ l : List β, (sortBy le l).Perm l := by
  intro l
  induction l with
  | nil => exact List.Perm.refl _
  | cons x xs ih =>
    exact (insertBy_perm le x (sortBy le xs)).trans (List.Perm.cons x ih)

theorem sortBy_congr {β : Type} {le1 le2 : β → β → Bool}
    (h : ∀ a b, le1 a b = le2 a b) (l : List β) : sortBy le1 l = sortBy le2 l := by
  have : le1 = le2 := funext (fun a => funext (fun b => h a b))
  rw [this]

theorem insertBy_pairwise {β : Type} {le : β → β → Bool}
    (htr : ∀ a b c, le a b = true → le b c = true → le a c = true)
    (htot : ∀ a b, le a b = true ∨ le b a = true) (x : β) :
    ∀ l : List β, List.Pairwise (fun a b => le a b = true) l →
      List.Pairwise (fun a b => le a b = true) (insertBy le x l) := by
  intro l
  induction l with
  | nil => intro _; simp [insertBy]
  | cons y ys ih =>
    intro hp
    rcases List.pairwise_cons.mp hp with ⟨hy, hys⟩
    by_cases h : le x y
    · simp only [insertBy, h, if_true]
      refine List.pairwise_cons.mpr ⟨?_, hp⟩
      intro b hb
      rcases List.mem_cons.mp hb with rfl | hb
      · exact h
      · exact htr x y b h (hy b hb)
    · simp only [insertBy, h, Bool.false_eq_true, if_false]
      refine List.pairwise_cons.mpr ⟨?_, ih hys⟩
      intro b hb
      have hmem := (insertBy_perm le x ys).mem_iff.mp hb
      rcases List.mem_cons.mp hmem with rfl | hb2
      · rcases htot y b with hyb | hby
        · exact hyb
        · exact absurd hby (by simpa using h)
      · exact hy b hb2

theorem sortBy_pairwise {β : Type} {le : β → β → Bool}
    (htr : ∀ a b c, le a b = true → le b c = true → le a c = true)
    (htot : ∀ a b, le a b = true ∨ le b a = true) :
    ∀ l : List β, List.Pairwise (fun a b => le a b = true) (sortBy le l) := by
  intro l
  induction l with
  | nil => exact List.Pairwise.nil
  | cons x xs ih => exact insertBy_pairwise htr htot x _ ih

/- ### Rolling feature engine

`compute_features` (feature_builder.py, lines 46-83).  Daily NAV series
per fund; an instrument whose (sorted) series is empty or shorter than
`MIN_HISTORY_DAYS = 756` (the 36-trading-month window) is skipped
entirely; otherwise a full set of daily rolling columns is computed and
the series is down-sampled to the last observation of each calendar
month (labelled by the month end, as `resample("ME").last()`; calendar
months absent from the data are not materialized — no claim depends on
gap months).  Values are reals, `NaN` is `none`, and incomplete rolling
windows yield `none`. -/

def WINDOW_1M : Nat := 21
def WINDOW_3M : Nat := 63
def WINDOW_6M : Nat := 126
def WINDOW_12M : Nat := 252
def WINDOW_24M : Nat := 504
def WINDOW_36M : Nat := 756

def MIN_HISTORY_DAYS : Nat := WINDOW_36M

/-- `2.0` (`MORNINGSTAR_PENALTY`). -/
def MORNINGSTAR_PENALTY : ℝ := 2

/-- `1e-8` (`EPSILON`). -/
noncomputable def EPSILON : ℝ := 1 / 100000000

/-- `pct_change` over the tail, given the previous value. -/
noncomputable def pctChangeGo (prev : ℝ) : List ℝ → List (Option ℝ)
  | [] => []
  | x :: xs => some (x / prev - 1) :: pctChangeGo x xs

/-- `Series.pct_change()`: `NaN` at the first observation, then
`p_i / p_{i-1} - 1`. -/
noncomputable def pctChange : List ℝ → List (Option ℝ)
  | [] => []
  | x :: xs => none :: pctChangeGo x xs

/-- `.fillna(0.0)`. -/
noncomputable def fillna0 (l : List (Option ℝ)) : List ℝ := l.map (fun o => o.getD 0)

/-- `ret_daily = group["unit_nav"].pct_change().fillna(0.0)`
(feature_builder.py, line 54). -/
noncomputable def retDaily (navs : List ℝ) : List ℝ := fillna0 (pctChange navs)

/-- `lambda x: np.prod(x) - 1` over a window of `1 + ret` values. -/
noncomputable def compoundWindow (rets : List ℝ) : ℝ := (rets.map (fun r => 1 + r)).prod - 1

/-- `_rolling_compound(returns, window)`. -/
noncomputable def rollingCompound (w : Nat) (rets : List ℝ) : List (Option ℝ) :=
  rollingApply compoundWindow w rets

/-- Arithmetic mean `xs.mean()` (`NaN`, never used here, guarded by the
rolling wrapper passing only full nonempty windows). -/
noncomputable def meanR (xs : List ℝ) : ℝ := xs.sum / xs.length

/-- Sample variance with `ddof = 1` (pandas default). -/
noncomputable def sampleVariance (xs : List ℝ) : ℝ :=
  ((xs.map (fun x => (x - meanR xs) ^ 2)).sum) / (xs.length - 1)

/-- `Series.std()` over a full window (`ddof = 1`). -/
noncomputable def sampleStd (xs : List ℝ) : ℝ := Real.sqrt (sampleVariance xs)

/-- `rolling(w).std() * sqrt(252)`. -/
noncomputable def rollingVolAnn (w : Nat) (rets : List ℝ) : List (Option ℝ) :=
  rollingApply (fun xs => sampleStd xs * Real.sqrt 252) w rets

/-- The `downside` closure of `_rolling_downside_volatility`
(feature_builder.py, lines 101-108). -/
noncomputable def downsideWindow (rets : List ℝ) : ℝ :=
  let negatives := rets.filter (fun r => decide (r < 0))
  if negatives.isEmpty then 0
  else Real.sqrt (meanR (negatives.map (fun r => r ^ 2))) * Real.sqrt 252

noncomputable def rollingDownside (w : Nat) (rets : List ℝ) : List (Option ℝ) :=
  rollingApply downsideWindow w rets

def omap {α β : Type} (f : α → β) : Option α → Option β
  | some a => some (f a)
  | none => none

def omap2 {α β γ : Type} (f : α → β → γ) : Option α → Option β → Option γ
  | some a, some b => some (f a b)
  | _, _ => none

structure FeatureRow where
  ret1m : Option ℝ
  ret3m : Option ℝ
  ret6m : Option ℝ
  ret12m : Option ℝ
  ret24m : Option ℝ
  ret36m : Option ℝ
  vol3m : Option ℝ
  vol6m : Option ℝ
  maxDrawdown6m : Option ℝ
  calmar6m : Option ℝ
  mdd36m : Option ℝ
  ret36mAnn : Option ℝ
  downsideVol36m : Option ℝ
  riskAdjReturn : Option ℝ
  morningstarScore : Option ℝ
  momentumRatio3m12m : Option ℝ
  volTrend3m6m : Option ℝ
  drawdownDiff6m36m : Option ℝ

/-- The daily feature columns of `compute_features` at day index `i` of
one fund's sorted NAV series (feature_builder.py, lines 54-73). -/
noncomputable def featureRowAt (navs : List ℝ) (i : Nat) : FeatureRow :=
  let rets := retDaily navs
  let r1 := (rollingCompound WINDOW_1M rets).getD i none
  let r3 := (rollingCompound WINDOW_3M rets).getD i none
  let r6 := (rollingCompound WINDOW_6M rets).getD i none
  let r12 := (rollingCompound WINDOW_12M rets).getD i none
  let r24 := (rollingCompound WINDOW_24M rets).getD i none
  let r36 := (rollingCompound WINDOW_36M rets).getD i none
  let v3 := (rollingVolAnn WINDOW_3M rets).getD i none
  let v6 := (rollingVolAnn WINDOW_6M rets).getD i none
  let mdd6 := (rollingMaxDrawdown WINDOW_6M navs).getD i none
  let mdd36 := (rollingMaxDrawdown WINDOW_36M navs).getD i none
  let calmar := omap2 (fun r m => r / |m|) r6
    (mdd6.bind (fun m => if m = 0 then none else some m))
  let r36ann := omap (fun r => (1 + r) ^ ((12 : ℝ) / 36) - 1) r36
  let dv36 := (rollingDownside WINDOW_36M rets).getD i none
  let riskAdj := omap2 (fun a d => a - MORNINGSTAR_PENALTY * d) r36ann dv36
  let mstar := omap2 (fun ra d => ra / (|d| + EPSILON)) riskAdj dv36
  let momentum := omap2 (fun a b => a / (|b| + EPSILON)) r3 r12
  let volTrend := omap2 (fun a b => a / (|b| + EPSILON)) v3 v6
  let ddDiff := omap2 (fun a b => a - b) mdd6 mdd36
  ⟨r1, r3, r6, r12, r24, r36, v3, v6, mdd6, calmar, mdd36, r36ann, dv36,
   riskAdj, mstar, momentum, volTrend, ddDiff⟩

/-- Last-of-month day indices of a date-sorted series
(`resample("ME").last()` keeps the final observation of each month). -/
def lastIdxPerMonth (dates : List Date) : List Nat :=
  (List.range dates.length).filter
    (fun i => i + 1 == dates.length ||
      !((dates.getD (i + 1) ⟨0, 1⟩).ym == (dates.getD i ⟨0, 1⟩).ym))

/-- Month-end snapshot label used by `resample("ME")`. -/
def monthEnd (ym : Nat) : Date := ⟨ym, daysInMonth ym⟩

structure FeatureRecord where
  fundCode : String
  snapshotDate : Date
  row : FeatureRow

/-- The records one qualifying fund contributes: sort by date, compute
the daily columns, down-sample to the last observation per month. -/
noncomputable def fundFeatureRecords (code : String)
    (rows : List (Date × ℝ)) : List FeatureRecord :=
  let sorted := sortBy (fun a b => decide (a.1 < b.1) || decide (a.1 = b.1)) rows
  let navs := sorted.map Prod.snd
  let dates := sorted.map Prod.fst
  (lastIdxPerMonth dates).map
    (fun i => ⟨code, monthEnd ((dates.getD i ⟨0, 1⟩).ym), featureRowAt navs i⟩)

/-- `compute_features`: skip a fund whose series is empty or shorter than
`MIN_HISTORY_DAYS`; concatenate the per-fund records (an empty list when
no fund qualifies). -/
noncomputable def computeFeatures
    (groups : List (String × List (Date × ℝ))) : List FeatureRecord :=
  groups.flatMap
    (fun g => if g.2.isEmpty || g.2.length < MIN_HISTORY_DAYS then []
              else fundFeatureRecords g.1 g.2)

theorem fundFeatureRecords_code (code : String) (rows : List (Date × ℝ)) :
    ∀ r ∈ fundFeatureRecords code rows, r.fundCode = code := by
  intro r hr
  unfold fundFeatureRecords at hr
  obtain ⟨i, _, rfl⟩ := List.mem_map.mp hr
  rfl

/-- C4: an instrument whose price series has fewer daily observations
than the 36-trading-month minimum (756 days) contributes no
`FeatureRecord` at all — every emitted record comes from a fund whose
series has at least 756 observations; and when no instrument qualifies
the call returns the empty result set instead of raising. -/
theorem compute_features_min_history (groups : List (String × List (Date × ℝ))) :
    (∀ rec ∈ computeFeatures groups, ∃ g ∈ groups,
        g.1 = rec.fundCode ∧ MIN_HISTORY_DAYS ≤ g.2.length) ∧
    ((∀ g ∈ groups, g.2.length < MIN_HISTORY_DAYS) →
        computeFeatures groups = []) := by
  constructor
  · intro rec hrec
    unfold computeFeatures at hrec
    obtain ⟨g, hg, hmem⟩ := List.mem_flatMap.mp hrec
    by_cases h : g.2.isEmpty || decide (g.2.length < MIN_HISTORY_DAYS)
    · rw [if_pos h] at hmem
      exact absurd hmem (List.not_mem_nil rec)
    · rw [if_neg h] at hmem
      refine ⟨g, hg, (fundFeatureRecords_code g.1 g.2 rec hmem).symm, ?_⟩
      simp only [Bool.or_eq_true, decide_eq_true_eq, not_or, not_lt] at h
      exact h.2
  · intro hall
    unfold computeFeatures
    rw [List.flatMap_eq_nil_iff]
    intro g hg
    rw [if_pos]
    have := hall g hg
    simp only [Bool.or_eq_true, decide_eq_true_eq]
    exact Or.inr this

/-- Witness for C4: a two-observation fund is excluded entirely and the
whole call returns the empty result set. -/
theorem compute_features_min_history_witness :
    (∀ g ∈ [("A", [((⟨0, 1⟩ : Date), (1:ℝ)), (⟨0, 2⟩, 2)])],
        g.2.length < MIN_HISTORY_DAYS) ∧
    computeFeatures [("A", [((⟨0, 1⟩ : Date), (1:ℝ)), (⟨0, 2⟩, 2)])] = [] := by
  have h : ∀ g ∈ [("A", [((⟨0, 1⟩ : Date), (1:ℝ)), (⟨0, 2⟩, 2)])],
      g.2.length < MIN_HISTORY_DAYS := by
    intro g hg
    rcases List.mem_singleton.mp hg with rfl
    show 2 < MIN_HISTORY_DAYS
    norm_num [MIN_HISTORY_DAYS, WINDOW_36M]
  exact ⟨h, (compute_features_min_history _).2 h⟩

theorem pctChangeGo_length (xs : List ℝ) :
    ∀ prev, (pctChangeGo prev xs).length = xs.length := by
  induction xs with
  | nil => intro prev; rfl
  | cons y ys ih => intro prev; simp [pctChangeGo, ih]

theorem retDaily_length (navs : List ℝ) :
    (retDaily navs).length = navs.length := by
  cases navs with
  | nil => rfl
  | cons x xs => simp [retDaily, fillna0, pctChange, pctChangeGo_length]

theorem rollingApply_getD {α β : Type} (f : List α → β) (w : Nat) (xs : List α)
    (i : Nat) (hi : i < xs.length) (hw : w ≤ i + 1) :
    (rollingApply f w xs).getD i none = some (f ((xs.drop (i + 1 - w)).take w)) := by
  unfold rollingApply
  have hlen : i < ((List.range xs.length).map
      (fun i => if w ≤ i + 1 then some (f ((xs.drop (i + 1 - w)).take w))
                else none)).length := by
    simpa using hi
  rw [List.getD_eq_getElem _ _ hlen, List.getElem_map, List.getElem_range]
  rw [if_pos hw]

/-- C10: the undefined first daily return is replaced by exactly 0.0
(`pct_change().fillna(0.0)`), not dropped: the daily-return series has
the same length as the price series, its first entry is 0, and the
rolling compounded return of the first full window (the only window that
covers the first observation) equals the compound of the returns from
day 1 on — day 0 contributes the factor 1 + 0 = 1. -/
theorem ret_daily_fillna_zero (navs : List ℝ) (w : Nat) :
    ((retDaily navs).length = navs.length) ∧
    (navs ≠ [] → (retDaily navs).head? = some 0) ∧
    (1 ≤ w → w ≤ navs.length →
      (rollingCompound w (retDaily navs)).getD (w - 1) none =
        some (((((retDaily navs).take w).drop 1).map (fun r => 1 + r)).prod - 1)) := by
  refine ⟨retDaily_length navs, ?_, ?_⟩
  · intro hne
    cases navs with
    | nil => exact absurd rfl hne
    | cons x xs => rfl
  · intro hw1 hwlen
    have hne : navs ≠ [] := by
      cases navs with
      | nil => simp at hwlen; omega
      | cons x xs => exact List.cons_ne_nil x xs
    have hi : w - 1 < (retDaily navs).length := by
      rw [retDaily_length]; omega
    have hw : w ≤ (w - 1) + 1 := by omega
    unfold rollingCompound
    rw [rollingApply_getD compoundWindow w (retDaily navs) (w - 1) hi hw]
    have hdrop : (w - 1) + 1 - w = 0 := by omega
    rw [hdrop, List.drop_zero]
    obtain ⟨x, xs, rfl⟩ : ∃ x xs, navs = x :: xs := by
      cases navs with
      | nil => exact absurd rfl hne
      | cons x xs => exact ⟨x, xs, rfl⟩
    have hret : retDaily (x :: xs) = 0 :: fillna0 (pctChangeGo x xs) := rfl
    rw [hret]
    obtain ⟨v, rfl⟩ : ∃ v, w = v + 1 := ⟨w - 1, by omega⟩
    rw [List.take_succ_cons, List.drop_one, List.tail_cons]
    unfold compoundWindow
    simp only [List.map_cons, List.prod_cons, add_zero, one_mul]

/-- Witness for C10 at a concrete two-day series with window 2. -/
theorem ret_daily_fillna_zero_witness :
    (([(1:ℝ), 2] : List ℝ) ≠ [] ∧ 1 ≤ 2 ∧ 2 ≤ ([(1:ℝ), 2] : List ℝ).length) ∧
    (retDaily [(1:ℝ), 2]).length = ([(1:ℝ), 2] : List ℝ).length ∧
    (retDaily [(1:ℝ), 2]).head? = some 0 ∧
    (rollingCompound 2 (retDaily [(1:ℝ), 2])).getD (2 - 1) none =
      some (((((retDaily [(1:ℝ), 2]).take 2).drop 1).map (fun r => 1 + r)).prod - 1) :=
  ⟨⟨by simp, by norm_num, by simp⟩,
   (ret_daily_fillna_zero [(1:ℝ), 2] 2).1,
   (ret_daily_fillna_zero [(1:ℝ), 2] 2).2.1 (by simp),
   (ret_daily_fillna_zero [(1:ℝ), 2] 2).2.2 (by norm_num) (by simp)⟩

/- ### Cross-sectional selection (sort by snapshot, score descending)

`df.sort_values(["snapshot_date", "score"], ascending=[True, False])`
followed by `df.groupby("snapshot_date").head(top_k)`
(optimizer.py, lines 95-99; backtester.py, lines 49-54). -/

structure TableRow (α : Type) where
  fund : String
  snap : Nat
  feats : List (String × α)

/-- Comparator of the sort: snapshot ascending, score descending. -/
def byDateScoreDesc {α : Type} [LinearOrder α] (key : TableRow α → α)
    (a b : TableRow α) : Bool :=
  decide (a.snap < b.snap) || (decide (a.snap = b.snap) && decide (key b ≤ key a))

/-- Distinct snapshot dates of an already snapshot-sorted list, in order
(`groupby` group keys). -/
def distinctSnaps : List Nat → List Nat
  | [] => []
  | [x] => [x]
  | x :: y :: r => if x = y then distinctSnaps (y :: r) else x :: distinctSnaps (y :: r)

/-- `groupby("snapshot_date").head(k)` of the sorted table, listed group
by group. -/
def topPerSnapshot {α : Type} [LinearOrder α] (k : Nat) (key : TableRow α → α)
    (rows : List (TableRow α)) : List (TableRow α) :=
  (distinctSnaps ((sortBy (byDateScoreDesc key) rows).map TableRow.snap)).flatMap
    (fun s => ((sortBy (byDateScoreDesc key) rows).filter
        (fun r => r.snap == s)).take k)

/-- Scale every coefficient of a weight mapping by `c`. -/
def scaleW {α : Type} [Mul α] (c : α) (w : List (String × α)) :
    List (String × α) :=
  w.map (fun p => (p.1, c * p.2))

theorem getW_scaleW {α : Type} [Semiring α] (c : α) (w : List (String × α))
    (x : String) : getW (scaleW c w) x = c * getW w x := by
  induction w with
  | nil => simp [getW, scaleW]
  | cons p t ih =>
    obtain ⟨a, v⟩ := p
    by_cases h : x == a
    · simp [getW, scaleW, List.lookup_cons, h]
    · simpa [getW, scaleW, List.lookup_cons, h] using ih

theorem dotCols_scaleW {α : Type} [CommSemiring α] (cols : List String)
    (c : α) (w r : List (String × α)) :
    dotCols cols (scaleW c w) r = c * dotCols cols w r := by
  unfold dotCols
  have hmap : cols.map (fun x => getW (scaleW c w) x * getW r x) =
      cols.map (fun x => c * (getW w x * getW r x)) := by
    apply List.map_congr_left
    intro x _
    rw [getW_scaleW, mul_assoc]
  rw [hmap, List.sum_map_mul_left]

/-- C7: scoring is linear in the weights — scaling every weight by `c`
scales every score by exactly `c` — and for every `c > 0` the sorted
order, hence the per-snapshot top-K selection, is unchanged. -/
theorem scoring_linear_scale_invariant {α : Type} [LinearOrderedField α]
    (cols : List String) (w : List (String × α)) (c : α)
    (rows : List (TableRow α)) (k : Nat) :
    (∀ r : TableRow α, dotCols cols (scaleW c w) r.feats =
        c * dotCols cols w r.feats) ∧
    (0 < c →
      topPerSnapshot k (fun r => dotCols cols (scaleW c w) r.feats) rows =
        topPerSnapshot k (fun r => dotCols cols w r.feats) rows) := by
  refine ⟨fun r => dotCols_scaleW cols c w r.feats, ?_⟩
  intro hc
  unfold topPerSnapshot
  have hs : sortBy (byDateScoreDesc
        (fun r : TableRow α => dotCols cols (scaleW c w) r.feats)) rows =
      sortBy (byDateScoreDesc
        (fun r : TableRow α => dotCols cols w r.feats)) rows := by
    apply sortBy_congr
    intro a b
    unfold byDateScoreDesc
    have hiff : (dotCols cols (scaleW c w) b.feats ≤
        dotCols cols (scaleW c w) a.feats) ↔
        (dotCols cols w b.feats ≤ dotCols cols w a.feats) := by
      rw [dotCols_scaleW, dotCols_scaleW]
      exact mul_le_mul_left hc
    rw [decide_eq_decide.mpr hiff]
  rw [hs]

/-- Witness for C7: scaling by 2 on a concrete table. -/
theorem scoring_linear_scale_invariant_witness :
    (0 : ℚ) < 2 ∧
    (∀ r : TableRow ℚ, dotCols ["f"] (scaleW 2 [("f", (3:ℚ))]) r.feats =
        2 * dotCols ["f"] [("f", (3:ℚ))] r.feats) ∧
    topPerSnapshot 1 (fun r : TableRow ℚ =>
        dotCols ["f"] (scaleW 2 [("f", (3:ℚ))]) r.feats)
      [⟨"a", 0, [("f", 1)]⟩, ⟨"b", 0, [("f", 2)]⟩] =
      topPerSnapshot 1 (fun r : TableRow ℚ =>
        dotCols ["f"] [("f", (3:ℚ))] r.feats)
      [⟨"a", 0, [("f", 1)]⟩, ⟨"b", 0, [("f", 2)]⟩] ∧
    dotCols ["f"] [("f", (3:ℚ))] [("f", (5:ℚ))] = 15 :=
  ⟨by norm_num,
   (scoring_linear_scale_invariant ["f"] [("f", (3:ℚ))] 2
      [⟨"a", 0, [("f", 1)]⟩, ⟨"b", 0, [("f", 2)]⟩] 1).1,
   (scoring_linear_scale_invariant ["f"] [("f", (3:ℚ))] 2
      [⟨"a", 0, [("f", 1)]⟩, ⟨"b", 0, [("f", 2)]⟩] 1).2 (by norm_num),
   by norm_num [dotCols, getW, List.lookup]⟩

/- ### Portfolio performance metrics

`evaluate_weights` (optimizer.py, lines 100-106) computes, over the
period-return series `portfolio_returns`:
`cumulative = (1 + r).cumprod()`, `ann_return = (1 + mean)**12 - 1`,
`vol = std() * sqrt(12)` (`NaN`, i.e. `none`, for fewer than 2 returns,
pandas `ddof=1`), `sharpe = ann_return / vol if vol and vol > 0 else 0`
(`NaN` is truthy but `NaN > 0` is false, so both the `NaN` and the zero
volatility cases give 0), and
`max_dd = (cumulative / cumulative.cummax() - 1).min()`.
`WalkForwardValidator.evaluate_on_test` (walk_forward_validator.py,
lines 346-358) instead computes, when at least 2 period returns exist,
`sharpe = mean / std * sqrt(12) if std > 0 else 0` — a different
formula — and explicitly falls back to 0 for all three metrics
otherwise. -/

noncomputable def cumProdGo (acc : ℝ) : List ℝ → List ℝ
  | [] => []
  | x :: xs => (acc * x) :: cumProdGo (acc * x) xs

/-- `Series.cumprod()`. -/
noncomputable def cumProd (l : List ℝ) : List ℝ := cumProdGo 1 l

/-- `vol = portfolio_returns.std() * math.sqrt(12)`; `none` is `NaN`. -/
noncomputable def optVol (rs : List ℝ) : Option ℝ :=
  if 2 ≤ rs.length then some (sampleStd rs * Real.sqrt 12) else none

/-- `ann_return = (1 + portfolio_returns.mean()) ** 12 - 1`; `none` is
the empty-mean `NaN`. -/
noncomputable def optAnnReturn (rs : List ℝ) : Option ℝ :=
  if 1 ≤ rs.length then some ((1 + meanR rs) ^ (12 : ℕ) - 1) else none

/-- `sharpe = ann_return / vol if vol and vol > 0 else 0`. -/
noncomputable def optSharpe (rs : List ℝ) : ℝ :=
  match optVol rs with
  | some v => if 0 < v then ((optAnnReturn rs).getD 0) / v else 0
  | none => 0

/-- `max_dd = (cumulative / cumulative.cummax() - 1).min()`: the same
running-max/minimum computation as the rolling drawdown, applied to the
compounded return path. -/
noncomputable def optMaxDrawdown (rs : List ℝ) : Option ℝ :=
  mddPath (cumProd (rs.map (fun r => 1 + r)))

/-- The `(sharpe, annual_return, max_drawdown)` triple of
`evaluate_on_test`. -/
noncomputable def testMetrics (rs : List ℝ) : ℝ × ℝ × ℝ :=
  if 2 ≤ rs.length then
    ((if 0 < sampleStd rs then meanR rs / sampleStd rs * Real.sqrt 12 else 0),
     (1 + meanR rs) ^ (12 : ℕ) - 1,
     (mddPath (cumProd (rs.map (fun r => 1 + r)))).getD 0)
  else (0, 0, 0)

/-- C6 (amended): in `evaluate_weights` the Sharpe ratio equals
`annualized_return / volatility` whenever at least 2 period returns
exist and the volatility is positive, and equals 0 in every other case
(`NaN` volatility from fewer than 2 returns and zero volatility both
resolve to 0 — nothing propagates); the max drawdown of a one-return
series is exactly 0; in `evaluate_on_test` all three metrics are
exactly 0 for fewer than 2 period returns, but for 2 or more returns
with positive standard deviation its Sharpe is `mean / std * sqrt(12)`,
*not* `annualized_return / volatility`. -/
theorem sharpe_guard_and_degenerate (rs : List ℝ) (r : ℝ) :
    (2 ≤ rs.length → 0 < sampleStd rs * Real.sqrt 12 →
      optSharpe rs = ((1 + meanR rs) ^ (12 : ℕ) - 1) /
        (sampleStd rs * Real.sqrt 12)) ∧
    (rs.length < 2 → optSharpe rs = 0) ∧
    (¬ (0 < sampleStd rs * Real.sqrt 12) → optSharpe rs = 0) ∧
    (1 + r ≠ 0 → optMaxDrawdown [r] = some 0) ∧
    (rs.length < 2 → testMetrics rs = (0, 0, 0)) ∧
    (2 ≤ rs.length → 0 < sampleStd rs →
      (testMetrics rs).1 = meanR rs / sampleStd rs * Real.sqrt 12) := by
  refine ⟨?_, ?_, ?_, ?_, ?_, ?_⟩
  · intro hlen hv
    unfold optSharpe optVol optAnnReturn
    rw [if_pos hlen]
    simp only [if_pos hv]
    rw [if_pos (by omega : 1 ≤ rs.length)]
    rfl
  · intro hlen
    unfold optSharpe optVol
    rw [if_neg (by omega)]
  · intro hv
    unfold optSharpe optVol
    by_cases hlen : 2 ≤ rs.length
    · rw [if_pos hlen]
      simp only [if_neg hv]
    · rw [if_neg hlen]
  · intro hr
    unfold optMaxDrawdown
    have hx : (1 : ℝ) * (1 + r) ≠ 0 := by
      rw [one_mul]; exact hr
    show mddPath [(1 : ℝ) * (1 + r)] = some 0
    unfold mddPath runMax runMaxAux npMin
    simp only [List.zipWith_cons_cons, List.zipWith_nil_right, List.foldl_nil]
    rw [div_self hx]
    norm_num
  · intro hlen
    unfold testMetrics
    rw [if_neg (by omega)]
  · intro hlen hstd
    unfold testMetrics
    rw [if_pos hlen]
    simp only [if_pos hstd]

theorem meanR_012 : meanR [(0:ℝ), 1, 2] = 1 := by
  simp [meanR]
  norm_num

theorem sampleStd_012 : sampleStd [(0:ℝ), 1, 2] = 1 := by
  have hvar : sampleVariance [(0:ℝ), 1, 2] = 1 := by
    unfold sampleVariance
    rw [meanR_012]
    simp [List.sum_cons]
    norm_num
  unfold sampleStd
  rw [hvar, Real.sqrt_one]

/-- C6 counterexample: on the period-return series [0, 1, 2] the Sharpe
computed by `evaluate_on_test` (`mean / std * sqrt(12)` = √12) is *not*
`annualized_return / volatility` (= 4095 / √12): the two sites use
different Sharpe formulas, refuting the claim for `evaluate_on_test`. -/
theorem test_sharpe_not_ann_over_vol :
    (testMetrics [(0:ℝ), 1, 2]).1 ≠
      ((optAnnReturn [(0:ℝ), 1, 2]).getD 0) / ((optVol [(0:ℝ), 1, 2]).getD 0) := by
  have hlhs : (testMetrics [(0:ℝ), 1, 2]).1 = Real.sqrt 12 := by
    unfold testMetrics
    rw [if_pos (by simp)]
    simp only [sampleStd_012, meanR_012]
    rw [if_pos one_pos]
    norm_num
  have hrhs : ((optAnnReturn [(0:ℝ), 1, 2]).getD 0) /
      ((optVol [(0:ℝ), 1, 2]).getD 0) = 4095 / Real.sqrt 12 := by
    unfold optAnnReturn optVol
    rw [if_pos (by simp), if_pos (by simp)]
    simp only [Option.getD_some, meanR_012, sampleStd_012]
    norm_num
  rw [hlhs, hrhs]
  intro heq
  have hspos : 0 < Real.sqrt 12 := Real.sqrt_pos.mpr (by norm_num)
  rw [eq_div_iff hspos.ne'] at heq
  rw [Real.mul_self_sqrt (by norm_num : (0:ℝ) ≤ 12)] at heq
  norm_num at heq

theorem sampleStd_024 : sampleStd [(0:ℝ), 2, 4] = 2 := by
  have hmean : meanR [(0:ℝ), 2, 4] = 2 := by
    simp [meanR]
    norm_num
  have hvar : sampleVariance [(0:ℝ), 2, 4] = 4 := by
    unfold sampleVariance
    rw [hmean]
    simp [List.sum_cons]
    norm_num
  unfold sampleStd
  rw [hvar, show (4:ℝ) = 2 ^ 2 by norm_num, Real.sqrt_sq (by norm_num)]

/-- Witness for C6 at concrete series [0, 2, 4] (optimizer formula and
test formula, positive volatility), [5] (degenerate cases). -/
theorem sharpe_guard_and_degenerate_witness :
    (2 ≤ ([(0:ℝ), 2, 4] : List ℝ).length ∧
      0 < sampleStd [(0:ℝ), 2, 4] * Real.sqrt 12 ∧
      optSharpe [(0:ℝ), 2, 4] =
        ((1 + meanR [(0:ℝ), 2, 4]) ^ (12 : ℕ) - 1) /
          (sampleStd [(0:ℝ), 2, 4] * Real.sqrt 12) ∧
      (testMetrics [(0:ℝ), 2, 4]).1 =
        meanR [(0:ℝ), 2, 4] / sampleStd [(0:ℝ), 2, 4] * Real.sqrt 12) ∧
    (([(5:ℝ)] : List ℝ).length < 2 ∧ optSharpe [(5:ℝ)] = 0 ∧
      testMetrics [(5:ℝ)] = (0, 0, 0)) ∧
    ((1:ℝ) + 5 ≠ 0 ∧ optMaxDrawdown [(5:ℝ)] = some 0) := by
  have hstd : 0 < sampleStd [(0:ℝ), 2, 4] * Real.sqrt 12 := by
    rw [sampleStd_024]
    have : 0 < Real.sqrt 12 := Real.sqrt_pos.mpr (by norm_num)
    positivity
  have hstd2 : 0 < sampleStd [(0:ℝ), 2, 4] := by
    rw [sampleStd_024]; norm_num
  refine ⟨⟨by simp, hstd, ?_, ?_⟩, ⟨by simp, ?_, ?_⟩, ⟨by norm_num, ?_⟩⟩
  · exact (sharpe_guard_and_degenerate [(0:ℝ), 2, 4] 0).1 (by simp) hstd
  · exact (sharpe_guard_and_degenerate [(0:ℝ), 2, 4] 0).2.2.2.2.2 (by simp) hstd2
  · exact (sharpe_guard_and_degenerate [(5:ℝ)] 0).2.1 (by simp)
  · exact (sharpe_guard_and_degenerate [(5:ℝ)] 0).2.2.2.2.1 (by simp)
  · exact (sharpe_guard_and_degenerate [] 5).2.2.2.1 (by norm_num)

/- ### Weight optimizers

`WalkForwardValidator.optimize_weights` (walk_forward_validator.py,
lines 186-247) grid-searches weight dictionaries over
`np.arange(min_weight, max_weight + grid_step, grid_step)`: exhaustive
`itertools.product` enumeration for at most 5 features, otherwise 1000
random trials drawing each coefficient with `np.random.choice` from the
*global* numpy generator (the function takes no seed); the first strict
maximum of the Sharpe objective wins (`-inf`, modelled `none`, for
degenerate evaluations), and `best_weights if best_weights else
{col: 0.1}` falls back only when nothing was ever installed (or the
dict is empty).  `run` (optimizer.py, lines 189-207) enumerates
`product(grid_values, repeat=len(FEATURE_COLS))`, skips combos that are
`np.allclose` to zero (atol 1e-8), combos with any |weight| below
`min_abs_weight`, and combos exceeding a per-feature cap, and keeps the
first strict maximum of `evaluate_weights(...).sharpe`.  Grid values and
weights are exact rationals; objective values are reals.  The upstream
`dropna` guards are callers' concerns and not part of the loops. -/

def castW (w : List (String × ℚ)) : List (String × ℝ) :=
  w.map (fun p => (p.1, (p.2 : ℝ)))

/-- `top.groupby("snapshot_date")[target].mean()` for one group: pandas
skips missing values and the caller's `.fillna(0)` maps an all-missing
group to 0. -/
noncomputable def groupMeanTarget (target : String) (rows : List (TableRow ℝ)) : ℝ :=
  if (rows.filterMap (fun r => r.feats.lookup target)).isEmpty then 0
  else meanR (rows.filterMap (fun r => r.feats.lookup target))

/-- The per-snapshot period returns of the top-`k` selection under a
score key: sort by (snapshot, score desc), take the first `k` of each
snapshot group, average the target column. -/
noncomputable def portfolioReturns (target : String) (k : Nat)
    (key : TableRow ℝ → ℝ) (rows : List (TableRow ℝ)) : List ℝ :=
  (distinctSnaps ((sortBy (byDateScoreDesc key) rows).map TableRow.snap)).map
    (fun s => groupMeanTarget target
      (((sortBy (byDateScoreDesc key) rows).filter (fun r => r.snap == s)).take k))

/-- `np.arange(start, stop, step)` for positive rational step. -/
def npArange (start stop step : ℚ) : List ℚ :=
  (List.range (Int.toNat ⌈(stop - start) / step⌉)).map
    (fun (i : Nat) => start + (i : ℚ) * step)

/-- `itertools.product(vals, repeat=n)`, first position slowest. -/
def productRepeat {α : Type} (vals : List α) : Nat → List (List α)
  | 0 => [[]]
  | n + 1 => vals.flatMap (fun v => (productRepeat vals n).map (fun c => v :: c))

/-- `_evaluate_weights` (walk_forward_validator.py, lines 249-289):
score with the weight dict (`fillna(0)` on features is the lookup
default), select the fixed top 30 per snapshot, and return the
annualized Sharpe `mean/std*sqrt(12)` of the period returns — `-inf`
(`none`) when fewer than 2 period returns exist or their deviation is
zero (or NaN). -/
noncomputable def wfEvalWeights (df : List (TableRow ℝ)) (cols : List String)
    (target : String) (w : List (String × ℚ)) : Option ℝ :=
  if (portfolioReturns target 30
        (fun r => dotCols cols (castW w) r.feats) df).length < 2 then none
  else if sampleStd (portfolioReturns target 30
        (fun r => dotCols cols (castW w) r.feats) df) = 0 then none
  else some (meanR (portfolioReturns target 30
        (fun r => dotCols cols (castW w) r.feats) df) /
      sampleStd (portfolioReturns target 30
        (fun r => dotCols cols (castW w) r.feats) df) * Real.sqrt 12)

/-- `sharpe > best_sharpe` with `best_sharpe` initialized to `-np.inf`
(`none`): `-inf` never beats anything and nothing loses to it. -/
def gtO : Option ℝ → Option ℝ → Prop
  | some x, some y => y < x
  | some _, none => True
  | none, _ => False

noncomputable instance : (a b : Option ℝ) → Decidable (gtO a b)
  | some x, some y => inferInstanceAs (Decidable (y < x))
  | some _, none => isTrue trivial
  | none, some _ => isFalse (fun h => h)
  | none, none => isFalse (fun h => h)

/-- The `optimize_weights` search loop: keep the weights of the first
strict maximum of the objective. -/
noncomputable def wfBestGo (obj : List (String × ℚ) → Option ℝ) :
    List (List (String × ℚ)) → Option ℝ → Option (List (String × ℚ)) →
      Option (List (String × ℚ))
  | [], _, bestW => bestW
  | t :: ts, bestS, bestW =>
    if gtO (obj t) bestS then wfBestGo obj ts (obj t) (some t)
    else wfBestGo obj ts bestS bestW

/-- The 1000 random trials: trial `t` draws one candidate per feature
column in order; `gen` is the ambient global numpy generator, modelled
as the stream of drawn candidate indices — it is *not* a parameter of
the source function. -/
def randomTrials (gen : Nat → Nat) (cols : List String) (candidates : List ℚ)
    (n : Nat) : List (List (String × ℚ)) :=
  (List.range n).map (fun t =>
    cols.enum.map (fun p =>
      (p.2, candidates.getD ((gen (t * cols.length + p.1)) % candidates.length) 0)))

/-- `WalkForwardValidator.optimize_weights`. -/
noncomputable def wfOptimizeWeights (df : List (TableRow ℝ)) (cols : List String)
    (target : String) (gridStep minW maxW : ℚ) (gen : Nat → Nat) :
    List (String × ℚ) :=
  match (if 5 < cols.length then
          wfBestGo (wfEvalWeights df cols target)
            (randomTrials gen cols (npArange minW (maxW + gridStep) gridStep) 1000)
            none none
        else
          wfBestGo (wfEvalWeights df cols target)
            ((productRepeat (npArange minW (maxW + gridStep) gridStep)
                cols.length).map (fun combo => cols.zip combo))
            none none) with
  | some w => if w = [] then cols.map (fun c => (c, (1:ℚ)/10)) else w
  | none => cols.map (fun c => (c, (1:ℚ)/10))

/-- `evaluate_weights(...).sharpe` as the objective of `optimizer.run`:
the full evaluator of optimizer.py applied to the scored selection. -/
noncomputable def evaluateWeightsSharpe (df : List (TableRow ℝ)) (target : String)
    (k : Nat) (w : List ℚ) : ℝ :=
  optSharpe (portfolioReturns target k
    (fun r => dotCols FEATURE_COLS (castW (FEATURE_COLS.zip w)) r.feats) df)

/-- `np.allclose(weight_vector, 0)` (default `atol = 1e-8`). -/
def allCloseZero (combo : List ℚ) : Bool :=
  combo.all (fun x => decide (|x| ≤ 1 / 100000000))

/-- `min_abs_weight > 0 and np.any(np.abs(w) < min_abs_weight)`. -/
def belowMinAbs (minAbs : ℚ) (combo : List ℚ) : Bool :=
  decide (0 < minAbs) && combo.any (fun x => decide (|x| < minAbs))

/-- A capped feature whose weight exceeds its cap. -/
def exceedsCaps (caps : List (String × ℚ)) (combo : List ℚ) : Bool :=
  (FEATURE_COLS.zip combo).any (fun p =>
    match caps.lookup p.1 with
    | some cap => decide (cap < p.2)
    | none => false)

/-- A combo the `run` loop does not `continue` past. -/
def survives (minAbs : ℚ) (caps : List (String × ℚ)) (combo : List ℚ) : Bool :=
  !allCloseZero combo && !belowMinAbs minAbs combo && !exceedsCaps caps combo

/-- The `best is None or result.sharpe > best.sharpe` fold of
`optimizer.run` over the surviving combos. -/
noncomputable def optimizerRunGo (obj : List ℚ → ℝ) :
    List (List ℚ) → Option (List ℚ × ℝ) → Option (List ℚ × ℝ)
  | [], best => best
  | c :: cs, best =>
    match best with
    | none => optimizerRunGo obj cs (some (c, obj c))
    | some b =>
      if b.2 < obj c then optimizerRunGo obj cs (some (c, obj c))
      else optimizerRunGo obj cs (some b)

/-- The grid-search of `optimizer.run`: enumerate
`product(grid, repeat=13)` in order, skip the filtered combos, keep the
first strict sharpe maximum. -/
noncomputable def optimizerRun (obj : List ℚ → ℝ) (grid : List ℚ) (minAbs : ℚ)
    (caps : List (String × ℚ)) : Option (List ℚ × ℝ) :=
  optimizerRunGo obj
    ((productRepeat grid FEATURE_COLS.length).filter (survives minAbs caps)) none

theorem optimizerRunGo_spec (obj : List ℚ → ℝ) :
    ∀ (l : List (List ℚ)) (b r : List ℚ × ℝ),
      optimizerRunGo obj l (some b) = some r →
      (∀ x ∈ l, obj x ≤ r.2) ∧ b.2 ≤ r.2 ∧
      (r = b ∨ ∃ l₁ l₂, l = l₁ ++ r.1 :: l₂ ∧ r.2 = obj r.1 ∧ b.2 < r.2 ∧
        ∀ x ∈ l₁, obj x < r.2) := by
  intro l
  induction l with
  | nil =>
    intro b r h
    simp only [optimizerRunGo] at h
    cases h
    exact ⟨by simp, le_refl _, Or.inl rfl⟩
  | cons c cs ih =>
    intro b r h
    simp only [optimizerRunGo] at h
    by_cases hcmp : b.2 < obj c
    · rw [if_pos hcmp] at h
      obtain ⟨h1, h2, h3⟩ := ih (c, obj c) r h
      refine ⟨?_, le_of_lt (lt_of_lt_of_le hcmp h2), ?_⟩
      · intro x hx
        rcases List.mem_cons.mp hx with rfl | hx
        · exact h2
        · exact h1 x hx
      · rcases h3 with rfl | ⟨l₁, l₂, hsplit, hobj, hlt, hpre⟩
        · exact Or.inr ⟨[], cs, rfl, rfl, hcmp, by simp⟩
        · refine Or.inr ⟨c :: l₁, l₂, by rw [hsplit]; rfl, hobj,
            lt_of_lt_of_le hcmp h2, ?_⟩
          intro x hx
          rcases List.mem_cons.mp hx with rfl | hx
          · exact hlt
          · exact hpre x hx
    · rw [if_neg hcmp] at h
      obtain ⟨h1, h2, h3⟩ := ih b r h
      push_neg at hcmp
      refine ⟨?_, h2, ?_⟩
      · intro x hx
        rcases List.mem_cons.mp hx with rfl | hx
        · exact hcmp.trans h2
        · exact h1 x hx
      · rcases h3 with rfl | ⟨l₁, l₂, hsplit, hobj, hlt, hpre⟩
        · exact Or.inl rfl
        · refine Or.inr ⟨c :: l₁, l₂, by rw [hsplit]; rfl, hobj, hlt, ?_⟩
          intro x hx
          rcases List.mem_cons.mp hx with rfl | hx
          · exact lt_of_le_of_lt hcmp hlt
          · exact hpre x hx

/-- C9 (amended): the grid search of `optimizer.run` iterates the
candidate combinations in the fixed caller-specified order (the product
of the caller's grid in source order) and keeps the *first* maximum of
the objective, so its result is fully determined by its caller-supplied
inputs; the walk-forward random search, by contrast, draws from the
global numpy generator and accepts no seed (see the counterexample). -/
theorem grid_search_first_max (df : List (TableRow ℝ)) (target : String)
    (k : Nat) (grid : List ℚ) (minAbs : ℚ) (caps : List (String × ℚ))
    (r : List ℚ × ℝ)
    (h : optimizerRun (evaluateWeightsSharpe df target k) grid minAbs caps =
      some r) :
    ∃ l₁ l₂,
      (productRepeat grid FEATURE_COLS.length).filter (survives minAbs caps) =
        l₁ ++ r.1 :: l₂ ∧
      r.2 = evaluateWeightsSharpe df target k r.1 ∧
      (∀ x ∈ l₁, evaluateWeightsSharpe df target k x < r.2) ∧
      (∀ x ∈ (productRepeat grid FEATURE_COLS.length).filter
          (survives minAbs caps),
        evaluateWeightsSharpe df target k x ≤ r.2) := by
  unfold optimizerRun at h
  rcases hS : (productRepeat grid FEATURE_COLS.length).filter
      (survives minAbs caps) with _ | ⟨c, cs⟩
  · rw [hS] at h
    simp [optimizerRunGo] at h
  · rw [hS] at h
    simp only [optimizerRunGo] at h
    obtain ⟨h1, h2, h3⟩ := optimizerRunGo_spec _ cs
      (c, evaluateWeightsSharpe df target k c) r h
    rcases h3 with rfl | ⟨l₁, l₂, hsplit, hobj, hlt, hpre⟩
    · refine ⟨[], cs, rfl, rfl, by simp, ?_⟩
      intro x hx
      rcases List.mem_cons.mp hx with rfl | hx
      · exact le_refl _
      · exact h1 x hx
    · refine ⟨c :: l₁, l₂, by rw [hsplit]; rfl, hobj, ?_, ?_⟩
      · intro x hx
        rcases List.mem_cons.mp hx with rfl | hx
        · exact hlt
        · exact hpre x hx
      · intro x hx
        rcases List.mem_cons.mp hx with rfl | hx
        · exact le_of_lt hlt
        · exact h1 x hx

/-- C3 (amended): `optimizer.run` skips every weight combination that is
`np.allclose` to zero, so a returned best vector is never the all-zero
(nor any near-zero) combination; `WalkForwardValidator.optimize_weights`
has no such skip and returns the all-zero combination when it ties for
the best objective, being enumerated first (see the counterexample). -/
theorem optimizer_run_never_all_zero (df : List (TableRow ℝ)) (target : String)
    (k : Nat) (grid : List ℚ) (minAbs : ℚ) (caps : List (String × ℚ))
    (r : List ℚ × ℝ)
    (h : optimizerRun (evaluateWeightsSharpe df target k) grid minAbs caps =
      some r) :
    allCloseZero r.1 = false := by
  unfold optimizerRun at h
  rcases hS : (productRepeat grid FEATURE_COLS.length).filter
      (survives minAbs caps) with _ | ⟨c, cs⟩
  · rw [hS] at h
    simp [optimizerRunGo] at h
  · rw [hS] at h
    simp only [optimizerRunGo] at h
    obtain ⟨_, _, h3⟩ := optimizerRunGo_spec _ cs
      (c, evaluateWeightsSharpe df target k c) r h
    have hmem : r.1 ∈ (productRepeat grid FEATURE_COLS.length).filter
        (survives minAbs caps) := by
      rw [hS]
      rcases h3 with rfl | ⟨l₁, l₂, hsplit, _, _, _⟩
      · exact List.mem_cons_self _ _
      · exact List.mem_cons_of_mem c (by rw [hsplit]; simp)
    have hsur : survives minAbs caps r.1 = true := List.of_mem_filter hmem
    unfold survives at hsur
    simp only [Bool.and_eq_true, Bool.not_eq_true'] at hsur
    exact hsur.1.1

theorem byDateScoreDesc_trans {α : Type} [LinearOrder α] (key : TableRow α → α) :
    ∀ a b c, byDateScoreDesc key a b = true → byDateScoreDesc key b c = true →
      byDateScoreDesc key a c = true := by
  intro a b c hab hbc
  unfold byDateScoreDesc at *
  simp only [Bool.or_eq_true, Bool.and_eq_true, decide_eq_true_eq] at *
  rcases hab with h1 | ⟨h1, h2⟩ <;> rcases hbc with h3 | ⟨h3, h4⟩
  · exact Or.inl (h1.trans h3)
  · exact Or.inl (h3 ▸ h1)
  · exact Or.inl (h1 ▸ h3)
  · exact Or.inr ⟨h1.trans h3, h4.trans h2⟩

theorem byDateScoreDesc_total {α : Type} [LinearOrder α] (key : TableRow α → α) :
    ∀ a b, byDateScoreDesc key a b = true ∨ byDateScoreDesc key b a = true := by
  intro a b
  unfold byDateScoreDesc
  simp only [Bool.or_eq_true, Bool.and_eq_true, decide_eq_true_eq]
  rcases Nat.lt_trichotomy a.snap b.snap with h | h | h
  · exact Or.inl (Or.inl h)
  · rcases le_total (key a) (key b) with hk | hk
    · exact Or.inr (Or.inr ⟨h.symm, hk⟩)
    · exact Or.inl (Or.inr ⟨h, hk⟩)
  · exact Or.inr (Or.inl h)

theorem sortBy_snaps_sorted {α : Type} [LinearOrder α] (key : TableRow α → α)
    (rows : List (TableRow α)) :
    List.Pairwise (fun a b : Nat => a ≤ b)
      ((sortBy (byDateScoreDesc key) rows).map TableRow.snap) := by
  refine List.Pairwise.map TableRow.snap ?_
    (sortBy_pairwise (byDateScoreDesc_trans key) (byDateScoreDesc_total key) rows)
  intro a b hab
  unfold byDateScoreDesc at hab
  simp only [Bool.or_eq_true, Bool.and_eq_true, decide_eq_true_eq] at hab
  rcases hab with h | ⟨h, _⟩
  · exact le_of_lt h
  · exact le_of_eq h

/-- A tiny training table: three snapshot dates, one fund each, future
returns 0, 1, 2.  Every snapshot group has a single row, so the top-30
selection is the whole cross-section whatever the scores are. -/
noncomputable def df0 : List (TableRow ℝ) :=
  [⟨"x", 1, [("t", 0)]⟩, ⟨"y", 2, [("t", 1)]⟩, ⟨"z", 3, [("t", 2)]⟩]

theorem portfolioReturns_df0 (key : TableRow ℝ → ℝ) :
    portfolioReturns "t" 30 key df0 = [0, 1, 2] := by
  have hperm : (sortBy (byDateScoreDesc key) df0).Perm df0 := sortBy_perm _ _
  have hsnaps : (sortBy (byDateScoreDesc key) df0).map TableRow.snap = [1, 2, 3] := by
    refine List.eq_of_perm_of_sorted ((hperm.map TableRow.snap).trans ?_)
      (sortBy_snaps_sorted key df0) ?_
    · show List.Perm [1, 2, 3] [1, 2, 3]
      exact List.Perm.refl _
    · show List.Pairwise (fun a b : Nat => a ≤ b) [1, 2, 3]
      decide
  have hfil : ∀ (s : Nat) (row : TableRow ℝ),
      df0.filter (fun r => r.snap == s) = [row] →
      (sortBy (byDateScoreDesc key) df0).filter (fun r => r.snap == s) = [row] := by
    intro s row hrow
    exact List.perm_singleton.mp ((hperm.filter _).trans (hrow ▸ List.Perm.refl _))
  have h1 : (sortBy (byDateScoreDesc key) df0).filter (fun r => r.snap == 1) =
      [⟨"x", 1, [("t", 0)]⟩] := hfil 1 _ (by simp [df0])
  have h2 : (sortBy (byDateScoreDesc key) df0).filter (fun r => r.snap == 2) =
      [⟨"y", 2, [("t", 1)]⟩] := hfil 2 _ (by simp [df0])
  have h3 : (sortBy (byDateScoreDesc key) df0).filter (fun r => r.snap == 3) =
      [⟨"z", 3, [("t", 2)]⟩] := hfil 3 _ (by simp [df0])
  unfold portfolioReturns
  rw [hsnaps]
  have hds : distinctSnaps [1, 2, 3] = [1, 2, 3] := by decide
  rw [hds]
  simp only [List.map_cons, List.map_nil]
  rw [h1, h2, h3]
  have htake : ∀ (r : TableRow ℝ), List.take 30 [r] = [r] := fun r => rfl
  simp only [htake]
  unfold groupMeanTarget
  simp [meanR, List.lookup, List.filterMap]

/-- On `df0` every weight dictionary evaluates to the same finite Sharpe:
the selection covers each whole one-row group regardless of scores. -/
theorem wfEvalWeights_df0 (cols : List String) (w : List (String × ℚ)) :
    wfEvalWeights df0 cols "t" w = some (Real.sqrt 12) := by
  unfold wfEvalWeights
  rw [portfolioReturns_df0]
  rw [if_neg (by simp), if_neg (by rw [sampleStd_012]; norm_num)]
  rw [meanR_012, sampleStd_012]
  norm_num

theorem wfBestGo_const (obj : List (String × ℚ) → Option ℝ) (q : ℝ)
    (t : List (String × ℚ)) :
    ∀ ts, (∀ x ∈ ts, obj x = some q) →
      wfBestGo obj ts (some q) (some t) = some t := by
  intro ts
  induction ts with
  | nil => intro _; rfl
  | cons u us ih =>
    intro h
    have hu : obj u = some q := h u (by simp)
    simp only [wfBestGo, hu]
    rw [if_neg (by simp [gtO])]
    exact ih (fun x hx => h x (by simp [hx]))

theorem wfBestGo_const_head (obj : List (String × ℚ) → Option ℝ) (q : ℝ)
    (t : List (String × ℚ)) (ts : List (List (String × ℚ)))
    (h : ∀ x ∈ t :: ts, obj x = some q) :
    wfBestGo obj (t :: ts) none none = some t := by
  have ht : obj t = some q := h t (by simp)
  simp only [wfBestGo, ht]
  rw [if_pos (show gtO (some q) none from trivial)]
  exact wfBestGo_const obj q t ts (fun x hx => h x (by simp [hx]))

theorem npArange_default :
    npArange 0 ((1:ℚ)/5 + 1/20) (1/20) = [0, 1/20, 1/10, 3/20, 1/5] := by
  have h5 : ⌈(((1:ℚ)/5 + 1/20) - 0) / (1/20)⌉ = (5:ℤ) := by norm_num
  unfold npArange
  rw [h5, show Int.toNat (5:ℤ) = 5 from rfl,
    show List.range 5 = [0, 1, 2, 3, 4] from by decide]
  simp only [List.map_cons, List.map_nil]
  norm_num

/-- C3 counterexample: on a training table where every snapshot group is
a single fund (so every weight combination ties at the same Sharpe),
`WalkForwardValidator.optimize_weights` with its default grid
(`np.arange(0.0, 0.25, 0.05)`, one feature, exhaustive branch) returns
the all-zero weight vector: the zero combination is enumerated first,
ties are kept by the strict comparison, and no all-zero skip exists. -/
theorem wf_grid_search_returns_all_zero :
    wfOptimizeWeights df0 ["f"] "t" (1/20) 0 (1/5) (fun _ => 0) =
      [("f", 0)] := by
  unfold wfOptimizeWeights
  rw [if_neg (by decide), show (["f"] : List String).length = 1 from rfl,
    npArange_default]
  have htr : (productRepeat [0, 1/20, 1/10, 3/20, (1:ℚ)/5] 1).map
      (fun combo => (["f"] : List String).zip combo) =
      [[("f", 0)], [("f", 1/20)], [("f", 1/10)], [("f", 3/20)], [("f", 1/5)]] := rfl
  rw [htr]
  rw [wfBestGo_const_head (wfEvalWeights df0 ["f"] "t") (Real.sqrt 12)
    [("f", 0)] _ (fun x _ => wfEvalWeights_df0 ["f"] x)]
  simp

theorem allCloseZero_ones_false :
    allCloseZero [1, 1, 1, 1, 1, 1, 1, 1, 1, 1, 1, 1, (1:ℚ)] = false := by
  apply Bool.eq_false_iff.mpr
  intro hall
  unfold allCloseZero at hall
  rw [List.all_eq_true] at hall
  have h1 := hall 1 (by simp)
  rw [decide_eq_true_eq, abs_one] at h1
  norm_num at h1

/-- On a singleton grid the run loop installs the single surviving combo. -/
theorem optimizerRun_singleton_eval :
    optimizerRun (evaluateWeightsSharpe df0 "t" 50) [1] 0 [] =
      some ([1, 1, 1, 1, 1, 1, 1, 1, 1, 1, 1, 1, (1:ℚ)],
        evaluateWeightsSharpe df0 "t" 50
          [1, 1, 1, 1, 1, 1, 1, 1, 1, 1, 1, 1, (1:ℚ)]) := by
  have hb : belowMinAbs 0 [1, 1, 1, 1, 1, 1, 1, 1, 1, 1, 1, 1, (1:ℚ)] = false := by
    unfold belowMinAbs
    have hd : decide ((0:ℚ) < 0) = false := by
      rw [decide_eq_false_iff_not]
      norm_num
    rw [hd, Bool.false_and]
  have hc : exceedsCaps [] [1, 1, 1, 1, 1, 1, 1, 1, 1, 1, 1, 1, (1:ℚ)] = false := by
    unfold exceedsCaps
    simp [List.lookup]
  have hs : survives 0 [] [1, 1, 1, 1, 1, 1, 1, 1, 1, 1, 1, 1, (1:ℚ)] = true := by
    unfold survives
    rw [allCloseZero_ones_false, hb, hc]
    rfl
  have hfil : (productRepeat [(1:ℚ)] FEATURE_COLS.length).filter (survives 0 []) =
      [[1, 1, 1, 1, 1, 1, 1, 1, 1, 1, 1, 1, (1:ℚ)]] := by
    rw [show productRepeat [(1:ℚ)] FEATURE_COLS.length =
        [[1, 1, 1, 1, 1, 1, 1, 1, 1, 1, 1, 1, (1:ℚ)]] from rfl]
    simp [List.filter_cons, hs]
  unfold optimizerRun
  rw [hfil]
  rfl

/-- Witness for the amended C3 on a concrete singleton grid: the
optimizer.run loop returns a weight vector that is not all-zero. -/
theorem optimizer_run_never_all_zero_witness :
    optimizerRun (evaluateWeightsSharpe df0 "t" 50) [1] 0 [] =
      some ([1, 1, 1, 1, 1, 1, 1, 1, 1, 1, 1, 1, (1:ℚ)],
        evaluateWeightsSharpe df0 "t" 50
          [1, 1, 1, 1, 1, 1, 1, 1, 1, 1, 1, 1, (1:ℚ)]) ∧
    allCloseZero [1, 1, 1, 1, 1, 1, 1, 1, 1, 1, 1, 1, (1:ℚ)] = false :=
  ⟨optimizerRun_singleton_eval,
   optimizer_run_never_all_zero df0 "t" 50 [1] 0 []
     ([1, 1, 1, 1, 1, 1, 1, 1, 1, 1, 1, 1, (1:ℚ)],
       evaluateWeightsSharpe df0 "t" 50
         [1, 1, 1, 1, 1, 1, 1, 1, 1, 1, 1, 1, (1:ℚ)])
     optimizerRun_singleton_eval⟩

/-- Witness for the amended C9: on a concrete singleton grid the run
loop's result is the first maximum of the surviving enumeration. -/
theorem grid_search_first_max_witness :
    optimizerRun (evaluateWeightsSharpe df0 "t" 50) [1] 0 [] =
      some ([1, 1, 1, 1, 1, 1, 1, 1, 1, 1, 1, 1, (1:ℚ)],
        evaluateWeightsSharpe df0 "t" 50
          [1, 1, 1, 1, 1, 1, 1, 1, 1, 1, 1, 1, (1:ℚ)]) ∧
    (∃ l₁ l₂,
      (productRepeat [(1:ℚ)] FEATURE_COLS.length).filter (survives 0 []) =
        l₁ ++ [1, 1, 1, 1, 1, 1, 1, 1, 1, 1, 1, 1, (1:ℚ)] :: l₂ ∧
      evaluateWeightsSharpe df0 "t" 50 [1, 1, 1, 1, 1, 1, 1, 1, 1, 1, 1, 1, (1:ℚ)] =
        evaluateWeightsSharpe df0 "t" 50 [1, 1, 1, 1, 1, 1, 1, 1, 1, 1, 1, 1, (1:ℚ)] ∧
      (∀ x ∈ l₁, evaluateWeightsSharpe df0 "t" 50 x <
        evaluateWeightsSharpe df0 "t" 50 [1, 1, 1, 1, 1, 1, 1, 1, 1, 1, 1, 1, (1:ℚ)]) ∧
      (∀ x ∈ (productRepeat [(1:ℚ)] FEATURE_COLS.length).filter (survives 0 []),
        evaluateWeightsSharpe df0 "t" 50 x ≤
          evaluateWeightsSharpe df0 "t" 50 [1, 1, 1, 1, 1, 1, 1, 1, 1, 1, 1, 1, (1:ℚ)])) :=
  ⟨optimizerRun_singleton_eval,
   grid_search_first_max df0 "t" 50 [1] 0 []
     ([1, 1, 1, 1, 1, 1, 1, 1, 1, 1, 1, 1, (1:ℚ)],
       evaluateWeightsSharpe df0 "t" 50 [1, 1, 1, 1, 1, 1, 1, 1, 1, 1, 1, 1, (1:ℚ)])
     optimizerRun_singleton_eval⟩

def cols6 : List String := ["a", "b", "c", "d", "e", "f"]

/-- The random branch (6 feature columns) with an ambient draw stream
`gen` returns trial 0's draws when every trial ties (strict comparison
keeps the first), i.e. the output is dictated by the global generator. -/
theorem wfOptimize_random_result (gen : Nat → Nat) :
    wfOptimizeWeights df0 cols6 "t" (1/20) 0 (1/5) gen =
      (if _h : (cols6.enum.map (fun p =>
          (p.2, ([0, 1/20, 1/10, 3/20, (1:ℚ)/5]).getD
            ((gen (0 * cols6.length + p.1)) % 5) 0))) = []
       then cols6.map (fun c => (c, (1:ℚ)/10))
       else cols6.enum.map (fun p =>
          (p.2, ([0, 1/20, 1/10, 3/20, (1:ℚ)/5]).getD
            ((gen (0 * cols6.length + p.1)) % 5) 0))) := by
  unfold wfOptimizeWeights
  rw [if_pos (by decide : 5 < cols6.length), npArange_default]
  unfold randomTrials
  rw [show (1000 : ℕ) = 999 + 1 from rfl, List.range_succ_eq_map]
  simp only [List.map_cons, List.map_map]
  rw [wfBestGo_const_head (wfEvalWeights df0 cols6 "t") (Real.sqrt 12) _ _
    (fun x _ => wfEvalWeights_df0 cols6 x)]
  rw [show ([0, 1/20, 1/10, 3/20, (1:ℚ)/5] : List ℚ).length = 5 from rfl]
  by_cases h : (cols6.enum.map (fun p =>
      (p.2, ([0, 1/20, 1/10, 3/20, (1:ℚ)/5]).getD
        ((gen (0 * cols6.length + p.1)) % 5) 0))) = []
  · rw [dif_pos h]
    show (if _ = [] then _ else _) = _
    rw [if_pos h]
  · rw [dif_neg h]
    show (if _ = [] then _ else _) = _
    rw [if_neg h]

/-- C9 counterexample: `WalkForwardValidator.optimize_weights` exposes no
seed — its random branch draws from the global numpy generator — so two
runs with identical caller-supplied inputs but different ambient
generator states return different weight vectors, refuting "an explicit
seed such that two runs with the same seed and inputs return the same
weights". -/
theorem wf_random_search_depends_on_global_rng :
    wfOptimizeWeights df0 cols6 "t" (1/20) 0 (1/5) (fun _ => 0) ≠
      wfOptimizeWeights df0 cols6 "t" (1/20) 0 (1/5) (fun _ => 1) := by
  rw [wfOptimize_random_result, wfOptimize_random_result]
  rw [dif_neg (by simp [cols6]), dif_neg (by simp [cols6])]
  intro h
  have h2 := congrArg (fun l : List (String × ℚ) => l.headD ("z", 37)) h
  have h3 : (0 : ℚ) = 1 / 20 := congrArg Prod.snd h2
  norm_num at h3
